import Mathlib

/-!
Trip plugin: fixed-endpoint table rewrite, connectivity partition, route segments.

A shallow embedding of `src/engine/plugins/trip.cpp`, followed by the stall-on-demand check of
the many-to-many search.

* A distance table is the flat row-major vector held by `util::DistTableWrapper`:
  entry `(from, to)` of a table over `n` locations lives at index `from * n + to`.
* `EdgeWeight` is the 32-bit signed `int` of the sources. The trip plugin only copies
  weights or writes `0` or the maximum value; the one addition of weights, in `StallAtNode`
  of `include/engine/routing_algorithms/many_to_many.hpp`, is embedded with 32-bit
  wrap-around.
* `std::size_t` indices are natural numbers: every index the embedded code computes is
  below the table size `n * n`, which is the size of an allocated vector.
-/

namespace osrm.engine.plugins

/-- The scalar cost type (`int` in the sources). -/
abbrev EdgeWeight := Int

/-- Location index (`unsigned` in the sources). -/
abbrev NodeID := Nat

/-- Value of `std::numeric_limits<EdgeWeight>::max()` for the 32-bit signed `EdgeWeight`. -/
def EdgeWeight_max : EdgeWeight := 2147483647

/-- Modelled from the spec: the constant `INVALID_EDGE_WEIGHT` of `util/typedefs.hpp`, which is
not among the sources; the spec describes it as the reserved maximum value of `EdgeWeight` that
denotes "no path". -/
def INVALID_EDGE_WEIGHT : EdgeWeight := 2147483647

/-- Row-major read of entry `(from_, to_)` of a flat table over `n` locations; `none` when the
index lies outside the vector. -/
def entry (table : List EdgeWeight) (n : Nat) (from_ to_ : Nat) : Option EdgeWeight :=
  table[from_ * n + to_]?

/-- The part of `api::TripParameters` that `HandleRequest` reads: the optional fixed start and
end, `-1` standing for "not given". -/
structure TripParameters where
  source : Int
  destination : Int
  deriving Repr, DecidableEq

/-- Guard `parameters.source > -1 && parameters.destination > -1` of `HandleRequest`. -/
def fixedEndpoints (parameters : TripParameters) : Bool :=
  decide (parameters.source > -1) && decide (parameters.destination > -1)

/-- Body of the `f_counter` loop of `HandleRequest` (lines 222-233): the source column test
followed by the destination row test, each writing the maximum weight at `f_counter`. -/
def tfseLoopBody (n source destination : Nat) (tfse_table_ : List EdgeWeight) (f_counter : Nat) :
    List EdgeWeight :=
  let t1 :=
    if f_counter % n = source then tfse_table_.set f_counter EdgeWeight_max else tfse_table_
  if n * destination ≤ f_counter ∧ f_counter < n * destination + n then
    t1.set f_counter EdgeWeight_max
  else t1

/-- Positions the loop overwrites: the source column and the destination row. -/
def blocked (n source destination f : Nat) : Prop :=
  f % n = source ∨ (n * destination ≤ f ∧ f < n * destination + n)

instance (n source destination f : Nat) : Decidable (blocked n source destination f) := by
  unfold blocked; infer_instance

/-- The `f_counter` loop of `HandleRequest`, run for `f_counter = 0 .. tfse_table_.size() - 1`. -/
def tfseLoop (n source destination : Nat) (tfse_table_ : List EdgeWeight) : List EdgeWeight :=
  (List.range tfse_table_.length).foldl (tfseLoopBody n source destination) tfse_table_

/-- The four writes after the loop (lines 234-237), in source order. -/
def tfseFinalWrites (n source destination : Nat) (tfse_table_ : List EdgeWeight) :
    List EdgeWeight :=
  let t1 := tfse_table_.set (source * n + source) 0
  let t2 := t1.set (destination * n + source) 0
  let t3 := t2.set (destination * n + destination) 0
  t3.set (source * n + destination) EdgeWeight_max

/-- The table block of `HandleRequest` (lines 198-238): `tfse_table_` and `result_table_` both
start as copies of the duration table; when both endpoints are given `tfse_table_` is rewritten.
Returns `(tfse_table_, result_table_)`. -/
def HandleRequest_tables (result_table : List EdgeWeight) (n : Nat) (parameters : TripParameters) :
    List EdgeWeight × List EdgeWeight :=
  let tfse_table_ := result_table
  let result_table_ := result_table
  if fixedEndpoints parameters then
    let source := parameters.source.toNat
    let destination := parameters.destination.toNat
    (tfseFinalWrites n source destination (tfseLoop n source destination tfse_table_),
      result_table_)
  else (tfse_table_, result_table_)

/-- The rewritten table `tfse_table_` that the rest of `HandleRequest` consumes. -/
def tfse_table (result_table : List EdgeWeight) (n : Nat) (parameters : TripParameters) :
    List EdgeWeight :=
  (HandleRequest_tables result_table n parameters).1

/-- The 5x5 matrix written in the comment of `HandleRequest` (lines 207-212). -/
def exampleTable : List EdgeWeight :=
  [0, 15, 36, 34, 30,
   15, 0, 25, 30, 34,
   36, 25, 0, 18, 32,
   34, 30, 18, 0, 15,
   30, 34, 32, 15, 0]

/-! ### Connectivity partition -/

/-- Object holding all strongly connected components: `component` lists all NodeIDs sorted by
component ID, `range` holds the index where each component starts, followed by the total. -/
structure SCC_Component where
  component : List NodeID
  range : List Nat
  deriving Repr, DecidableEq

/-- The four `BOOST_ASSERT_MSG` conditions of the `SCC_Component` constructor (lines 48-54). -/
def SCC_Component.assertions (c : SCC_Component) : Prop :=
  c.component.length > 0 ∧
  c.range.max? = some c.component.length ∧
  c.range.min? = some 0 ∧
  List.Pairwise (fun a b => a ≤ b) c.range

instance (c : SCC_Component) : Decidable c.assertions := by
  unfold SCC_Component.assertions; infer_instance

/-- `SCC_Component::GetNumberOfComponents`: `range.size() - 1`. -/
def SCC_Component.GetNumberOfComponents (c : SCC_Component) : Nat :=
  c.range.length - 1

/-- What `SplitUnaccessibleLocations` reads from the `extractor::TarjanSCC` object after
`scc.Run()`: the number of components, the component of each node and the size of each
component. The class itself is not among the sources. -/
structure TarjanSCC where
  GetNumberOfComponents : Nat
  GetComponentID : NodeID → Nat
  GetComponentSize : Nat → Nat

/-- Body of the first loop of `SplitUnaccessibleLocations` (lines 100-105) on the state
`(range_insertion, range, prefix)`. -/
def prefixLoopBody (scc : TarjanSCC) (st : List Nat × List Nat × Nat) (j : Nat) :
    List Nat × List Nat × Nat :=
  (st.1 ++ [st.2.2], st.2.1 ++ [st.2.2], st.2.2 + scc.GetComponentSize j)

/-- First loop of `SplitUnaccessibleLocations`, for `j = 0 .. number_of_components - 1`. -/
def prefixLoop (scc : TarjanSCC) (number_of_components : Nat) : List Nat × List Nat × Nat :=
  (List.range number_of_components).foldl (prefixLoopBody scc) ([], [], 0)

/-- Body of the second loop of `SplitUnaccessibleLocations` (lines 109-113) on the state
`(components, range_insertion)`: node `i` is stored at the insertion point of its component,
which is then advanced. A read outside `range_insertion` yields `0` here. -/
def bucketLoopBody (scc : TarjanSCC) (st : List NodeID × List Nat) (i : Nat) :
    List NodeID × List Nat :=
  let slot := st.2.getD (scc.GetComponentID i) 0
  (st.1.set slot i, st.2.set (scc.GetComponentID i) (slot + 1))

/-- Second loop of `SplitUnaccessibleLocations`, for `i = 0 .. number_of_locations - 1`. -/
def bucketLoop (scc : TarjanSCC) (number_of_locations : Nat) (st : List NodeID × List Nat) :
    List NodeID × List Nat :=
  (List.range number_of_locations).foldl (bucketLoopBody scc) st

/-- The general branch of `SplitUnaccessibleLocations` (lines 90-115), given the `TarjanSCC`
object after `Run()`. -/
def SplitUnaccessibleLocations_general (number_of_locations : Nat) (scc : TarjanSCC) :
    SCC_Component :=
  let number_of_components := scc.GetNumberOfComponents
  let components : List NodeID := List.replicate number_of_locations 0
  let st := prefixLoop scc number_of_components
  let range_insertion := st.1
  let range := st.2.1 ++ [components.length]
  let filled := bucketLoop scc number_of_locations (components, range_insertion)
  { component := filled.1, range := range }

/-- `SplitUnaccessibleLocations` (lines 70-116). `runTarjan table n` stands for building the
`MatrixGraphWrapper` over the table and running `TarjanSCC` on it. -/
def SplitUnaccessibleLocations (runTarjan : List EdgeWeight → Nat → TarjanSCC)
    (number_of_locations : Nat) (result_table : List EdgeWeight) : SCC_Component :=
  if INVALID_EDGE_WEIGHT ∉ result_table then
    let location_ids := List.range number_of_locations
    { component := location_ids, range := [0, location_ids.length] }
  else
    SplitUnaccessibleLocations_general number_of_locations
      (runTarjan result_table number_of_locations)

/-- Sum of the sizes of the components below `k`: the value of the running total of the first
loop when it reaches `j = k`. -/
def sizesBelow (scc : TarjanSCC) (k : Nat) : Nat :=
  ((List.range k).map scc.GetComponentSize).sum

/-- Nodes below `m` that the SCC routine puts in component `k`, in increasing order. -/
def bucket (scc : TarjanSCC) (m k : Nat) : List NodeID :=
  (List.range m).filter (fun i => scc.GetComponentID i = k)

/-- Slot of component `k` in `components` after the second loop has handled the nodes below `m`:
the nodes already stored, then the zeros of the initial fill. -/
def partialSlot (scc : TarjanSCC) (m k : Nat) : List NodeID :=
  bucket scc m k ++ List.replicate (scc.GetComponentSize k - (bucket scc m k).length) 0

/-! ### Strongly connected components of the table graph -/

/-- Edge predicate of `util::MatrixGraphWrapper` (not among the sources; per the spec an edge
exists iff the matrix entry is not the sentinel). -/
def hasEdge (table : List EdgeWeight) (n : Nat) (i j : Nat) : Bool :=
  decide (entry table n i j ≠ some INVALID_EDGE_WEIGHT)

/-- One round of forward expansion: the nodes of `seen` together with every node below `n` that
has an edge from a node of `seen`. -/
def expand (table : List EdgeWeight) (n : Nat) (seen : List Nat) : List Nat :=
  (List.range n).filter (fun j => seen.contains j || seen.any (fun i => hasEdge table n i j))

/-- Nodes reachable from `i` along edges of the table graph (`n` rounds suffice for `n` nodes). -/
def reachableFrom (table : List EdgeWeight) (n : Nat) (i : Nat) : List Nat :=
  Nat.iterate (expand table n) n [i]

/-- Mutual reachability: `i` and `j` lie in the same strongly connected component. -/
def sameComponent (table : List EdgeWeight) (n : Nat) (i j : Nat) : Bool :=
  (reachableFrom table n i).contains j && (reachableFrom table n j).contains i

/-- Smallest member of the strongly connected component of `i`. -/
def representative (table : List EdgeWeight) (n : Nat) (i : Nat) : Nat :=
  ((List.range n).find? (fun k => sameComponent table n i k)).getD i

/-- Modelled from the spec: `extractor::TarjanSCC` run over `util::MatrixGraphWrapper`, neither of
which is among the sources. The spec asks for the partition of `0..n-1` into strongly connected
components (maximal sets of mutually reachable nodes) with "entry is not sentinel" as the edge
predicate, and leaves the order of the components open; here components are numbered by their
smallest member. -/
def runTarjanSCC (table : List EdgeWeight) (n : Nat) : TarjanSCC :=
  let roots := (List.range n).filter (fun k => representative table n k = k)
  let componentID := fun i => (roots.filter (fun k => k < representative table n i)).length
  { GetNumberOfComponents := roots.length
    GetComponentID := componentID
    GetComponentSize := fun c => ((List.range n).filter (fun i => componentID i = c)).length }

/-! ### Route segments -/

/-- The `for` loop of `TripPlugin::ComputeRoute` (lines 130-144). The third argument is the
part of `trip` from the iterator `it` to `end`; `segments` is
`min_route.segment_end_coordinates`. -/
def ComputeRoute_loop {PhantomNode : Type} [Inhabited PhantomNode]
    (snapped_phantoms : List PhantomNode) (trip : List NodeID) (roundtrip : Bool) :
    List NodeID → List (PhantomNode × PhantomNode) → List (PhantomNode × PhantomNode)
  | [], segments => segments
  | from_node :: rest, segments =>
    if !roundtrip && rest.isEmpty then segments
    else
      let to_node := match rest with
        | [] => trip.headD 0
        | next :: _ => next
      ComputeRoute_loop snapped_phantoms trip roundtrip rest
        (segments ++ [(snapped_phantoms.getD from_node default,
          snapped_phantoms.getD to_node default)])

/-- The segment list `min_route.segment_end_coordinates` that `ComputeRoute` hands to the
shortest-path routine (line 147). -/
def ComputeRoute_segments {PhantomNode : Type} [Inhabited PhantomNode]
    (snapped_phantoms : List PhantomNode) (trip : List NodeID) (roundtrip : Bool) :
    List (PhantomNode × PhantomNode) :=
  ComputeRoute_loop snapped_phantoms trip roundtrip trip []

/-! ### Per-component trip construction -/

/-- Threshold constant of `HandleRequest` (line 194). -/
def BF_MAX_FEASABLE : Nat := 10

/-- Which tour builder a component was handed to. -/
inductive BuilderCall where
  | noBuilder
  | BruteForceTrip
  | FarthestInsertionTrip
  deriving Repr, DecidableEq

/-- Signature shared by `trip::BruteForceTrip` and `trip::FarthestInsertionTrip` (not among the
sources): the nodes `[route_begin, route_end)`, the number of locations and the table. -/
abbrev TripBuilder := List NodeID → Nat → List EdgeWeight → List NodeID

/-- Body of the component loop of `HandleRequest` (lines 270-306) for component `k`: returns the
builder that was called together with `scc_route`. `range` is non-decreasing (asserted by the
`SCC_Component` constructor), so the unsigned subtraction is the natural-number one. -/
def HandleRequest_sccRoute (bruteForce farthestInsertion : TripBuilder)
    (parameters : TripParameters) (number_of_locations : Nat)
    (tfse_table result_table : List EdgeWeight) (scc : SCC_Component) (k : Nat) :
    BuilderCall × List NodeID :=
  let component_size := scc.range.getD (k + 1) 0 - scc.range.getD k 0
  let route := (scc.component.drop (scc.range.getD k 0)).take component_size
  if component_size > 1 then
    if component_size < BF_MAX_FEASABLE then
      if fixedEndpoints parameters then
        (BuilderCall.BruteForceTrip, bruteForce route number_of_locations tfse_table)
      else
        (BuilderCall.BruteForceTrip, bruteForce route number_of_locations result_table)
    else
      if fixedEndpoints parameters then
        (BuilderCall.FarthestInsertionTrip,
          farthestInsertion route number_of_locations tfse_table)
      else
        (BuilderCall.FarthestInsertionTrip,
          farthestInsertion route number_of_locations result_table)
  else
    (BuilderCall.noBuilder, route)

/-- The `trips` vector of `HandleRequest` (lines 198-315): rewrite the table, partition it with
`SplitUnaccessibleLocations`, and build one trip per component. -/
def HandleRequest_trips (runTarjan : List EdgeWeight → Nat → TarjanSCC)
    (bruteForce farthestInsertion : TripBuilder) (parameters : TripParameters)
    (number_of_locations : Nat) (result_table : List EdgeWeight) : List (List NodeID) :=
  let tfse := tfse_table result_table number_of_locations parameters
  let scc := SplitUnaccessibleLocations runTarjan number_of_locations tfse
  (List.range scc.GetNumberOfComponents).map (fun k =>
    (HandleRequest_sccRoute bruteForce farthestInsertion parameters number_of_locations
      tfse result_table scc k).2)

/-- The `roundtrip` flag of `HandleRequest` (lines 324-327). -/
def HandleRequest_roundtrip (parameters : TripParameters) : Bool :=
  !fixedEndpoints parameters

/-- The segment lists of the routes computed at the end of `HandleRequest` (lines 328-331):
every trip goes to `ComputeRoute` as it was built. -/
def HandleRequest_routes {PhantomNode : Type} [Inhabited PhantomNode]
    (runTarjan : List EdgeWeight → Nat → TarjanSCC) (bruteForce farthestInsertion : TripBuilder)
    (parameters : TripParameters) (snapped_phantoms : List PhantomNode)
    (result_table : List EdgeWeight) : List (List (PhantomNode × PhantomNode)) :=
  (HandleRequest_trips runTarjan bruteForce farthestInsertion parameters
      snapped_phantoms.length result_table).map
    (fun trip => ComputeRoute_segments snapped_phantoms trip (HandleRequest_roundtrip parameters))

/-! ### Tours over a table -/

/-- Cost of the edge `e.1 → e.2` read from the table; an index outside the table reads as the
sentinel. -/
def edgeCost (table : List EdgeWeight) (n : Nat) (e : Nat × Nat) : EdgeWeight :=
  (entry table n e.1 e.2).getD INVALID_EDGE_WEIGHT

/-- Consecutive pairs of an ordering, without a closing pair. -/
def pathEdges (p : List Nat) : List (Nat × Nat) :=
  p.zip p.tail

/-- Consecutive pairs of an ordering read as a cycle: the last location is paired with the
first. -/
def cycleEdges (p : List Nat) : List (Nat × Nat) :=
  p.zip (p.rotate 1)

/-- Total cost of the open path through `p`. -/
def pathCost (table : List EdgeWeight) (n : Nat) (p : List Nat) : Int :=
  ((pathEdges p).map (edgeCost table n)).sum

/-- Total cost of the closed tour through `p`. -/
def cycleCost (table : List EdgeWeight) (n : Nat) (p : List Nat) : Int :=
  ((cycleEdges p).map (edgeCost table n)).sum

/-- Every edge of the open path through `p` is non-sentinel. -/
def pathUsable (table : List EdgeWeight) (n : Nat) (p : List Nat) : Prop :=
  ∀ e ∈ pathEdges p, edgeCost table n e ≠ INVALID_EDGE_WEIGHT

/-- Every edge of the closed tour through `p`, the closing edge included, is non-sentinel. -/
def cycleUsable (table : List EdgeWeight) (n : Nat) (p : List Nat) : Prop :=
  ∀ e ∈ cycleEdges p, edgeCost table n e ≠ INVALID_EDGE_WEIGHT

instance (table : List EdgeWeight) (n : Nat) (p : List Nat) : Decidable (pathUsable table n p) := by
  unfold pathUsable; infer_instance

instance (table : List EdgeWeight) (n : Nat) (p : List Nat) : Decidable (cycleUsable table n p) := by
  unfold cycleUsable; infer_instance

/-- A closed tour over all `n` locations whose edges, the closing one included, are all
non-sentinel in the table. -/
def IsClosedTour (table : List EdgeWeight) (n : Nat) (p : List Nat) : Prop :=
  p.Perm (List.range n) ∧ cycleUsable table n p

/-- An open path over all `n` locations from `s` to `d` whose edges are all non-sentinel in the
table. -/
def IsOpenPath (table : List EdgeWeight) (n s d : Nat) (q : List Nat) : Prop :=
  q.Perm (List.range n) ∧ q.head? = some s ∧ q.getLast? = some d ∧ pathUsable table n q

/-- The cost `m` is attained by a closed tour and is a lower bound for all of them. -/
def IsMinClosedTourCost (table : List EdgeWeight) (n : Nat) (m : Int) : Prop :=
  (∃ p, IsClosedTour table n p ∧ cycleCost table n p = m) ∧
  ∀ p, IsClosedTour table n p → m ≤ cycleCost table n p

/-- The cost `m` is attained by an open path from `s` to `d` and is a lower bound for all of
them. -/
def IsMinOpenPathCost (table : List EdgeWeight) (n s d : Nat) (m : Int) : Prop :=
  (∃ q, IsOpenPath table n s d q ∧ pathCost table n q = m) ∧
  ∀ q, IsOpenPath table n s d q → m ≤ pathCost table n q

/-- Members of component `k`, read the way the comment on `SCC_Component` prescribes: the
part of `component` from `range[k]` up to `range[k+1]`. -/
def SCC_Component.members (c : SCC_Component) (k : Nat) : List NodeID :=
  (c.component.drop (c.range.getD k 0)).take (c.range.getD (k + 1) 0 - c.range.getD k 0)

/-- A 3x3 table in which locations 0 and 1 reach each other and location 2 is cut off. -/
def twoIslandsTable : List EdgeWeight :=
  [0, 7, INVALID_EDGE_WEIGHT,
   9, 0, INVALID_EDGE_WEIGHT,
   INVALID_EDGE_WEIGHT, INVALID_EDGE_WEIGHT, 0]

/-- The example matrix with entries `(2,4)` and `(4,2)` replaced by the sentinel. -/
def disconnectedPairTable : List EdgeWeight :=
  (exampleTable.set (2 * 5 + 4) INVALID_EDGE_WEIGHT).set (4 * 5 + 2) INVALID_EDGE_WEIGHT

/-! ### Two locations with fixed endpoints -/

/-- What holds for a rewritten 2x2 table `T` with source `s` and destination `d`: its four
entries, no usable closed tour, `d` out of reach from `s`, and two singleton components. -/
def twoLocationFacts (T : List EdgeWeight) (s d : Nat) : Prop :=
  entry T 2 s s = some 0 ∧ entry T 2 s d = some INVALID_EDGE_WEIGHT ∧
  entry T 2 d s = some 0 ∧ entry T 2 d d = some 0 ∧
  (∀ p ∈ List.permutations' (List.range 2), ¬ cycleUsable T 2 p) ∧
  (∀ c, c < 2 → hasEdge T 2 s c = true → c = s) ∧
  (reachableFrom T 2 s).contains d = false ∧
  sameComponent T 2 s d = false ∧
  SplitUnaccessibleLocations runTarjanSCC 2 T = { component := [0, 1], range := [0, 1, 2] } ∧
  (SplitUnaccessibleLocations runTarjanSCC 2 T).members 0 = [0] ∧
  (SplitUnaccessibleLocations runTarjanSCC 2 T).members 1 = [1]

instance (T : List EdgeWeight) (s d : Nat) : Decidable (twoLocationFacts T s d) := by
  unfold twoLocationFacts; infer_instance

/-! ### A report that the shortcut branch does not consult -/

/-- A sentinel-free 2x2 table: both locations reach each other. -/
def connectedPairTable : List EdgeWeight :=
  [0, 1,
   1, 0]

/-- An SCC report of two singleton components for two locations: node `i` is in component `i`
and every component has size 1. It meets the assumptions of the partition invariant. -/
def twoSingletonsSCC : TarjanSCC :=
  { GetNumberOfComponents := 2
    GetComponentID := fun i => i
    GetComponentSize := fun _ => 1 }

/-! ### The documented partition example -/

/-- The SCC report of the comment on `SCC_Component` (lines 41-42): NodeIDs 0, 1, 2, 4, 5 are in
component 0 and NodeIDs 3, 6, 7, 8 are in component 1. -/
def commentExampleSCC : TarjanSCC :=
  { GetNumberOfComponents := 2
    GetComponentID := fun i => if i = 3 ∨ i = 6 ∨ i = 7 ∨ i = 8 then 1 else 0
    GetComponentSize := fun k => if k = 0 then 5 else 4 }

/-- A 9x9 table for the comment's example: cost 0 on the diagonal, cost 1 between two locations
of the same component, the sentinel between the components. -/
def commentExampleTable : List EdgeWeight :=
  (List.range 81).map (fun f =>
    if f / 9 = f % 9 then 0
    else if commentExampleSCC.GetComponentID (f / 9) = commentExampleSCC.GetComponentID (f % 9)
    then 1 else INVALID_EDGE_WEIGHT)

/-! ### Outcome of the trip pipeline -/

/-- How the part of `HandleRequest` from the empty-table check on (lines 189-336) ends: the plain
`Status::Error` of line 191, the `"NoTrips"` error of line 318, or `Status::Ok`. -/
inductive HandleRequestOutcome where
  | Error
  | NoTrips
  | Ok
  deriving Repr, DecidableEq

/-- `HandleRequest` from line 189 on, given the duration table of the snapped locations: the
empty-table check, the construction of `trips`, and the check `trips.empty()`. -/
def HandleRequest_outcome (runTarjan : List EdgeWeight → Nat → TarjanSCC)
    (bruteForce farthestInsertion : TripBuilder) (parameters : TripParameters)
    (number_of_locations : Nat) (result_table : List EdgeWeight) : HandleRequestOutcome :=
  if result_table.length = 0 then HandleRequestOutcome.Error
  else
    let trips := HandleRequest_trips runTarjan bruteForce farthestInsertion parameters
      number_of_locations result_table
    if trips.isEmpty then HandleRequestOutcome.NoTrips
    else HandleRequestOutcome.Ok

end osrm.engine.plugins

/-! ### Stall-on-demand check of the many-to-many search

A shallow embedding of `StallAtNode` in `include/engine/routing_algorithms/many_to_many.hpp`.
-/

namespace osrm.engine.routing_algorithms

open osrm.engine.plugins

/-- Edge identifier of the contracted graph. -/
abbrev EdgeID := Nat

/-- Reduction of an integer to the 32-bit signed range with wrap-around. -/
def wrapInt32 (x : Int) : Int :=
  (x + 2147483648) % 4294967296 - 2147483648

/-- The `int` addition `query_heap.GetKey(to) + edge_weight` of line 94, with 32-bit
wrap-around. -/
def addWeight (key edge_weight : EdgeWeight) : EdgeWeight :=
  wrapInt32 (key + edge_weight)

/-- The fields of the edge data that `StallAtNode` reads. -/
structure EdgeData where
  weight : EdgeWeight
  forward : Bool
  backward : Bool
  deriving Repr, DecidableEq

/-- The part of the data facade that `StallAtNode` uses: the adjacent edges of a node, the data
of an edge and its target. The facade class is not among the sources. -/
structure DataFacade where
  GetAdjacentEdgeRange : NodeID → List EdgeID
  GetEdgeData : EdgeID → EdgeData
  GetTarget : EdgeID → NodeID

/-- The part of `SearchEngineData::QueryHeap` that `StallAtNode` uses: whether a node was
inserted, and its key. The heap class is not among the sources. -/
structure QueryHeap where
  WasInserted : NodeID → Bool
  GetKey : NodeID → EdgeWeight

/-- The `for` loop of `StallAtNode` (lines 83-101) over the remaining adjacent edges; returns the
result together with the heap as the loop leaves it. The `BOOST_ASSERT_MSG` of line 91 has no
effect on the result. -/
def StallAtNode_loop (forward_direction : Bool) (facade : DataFacade) (weight : EdgeWeight)
    (query_heap : QueryHeap) : List EdgeID → Bool × QueryHeap
  | [] => (false, query_heap)
  | edge :: rest =>
    let data := facade.GetEdgeData edge
    let reverse_flag := if !forward_direction then data.forward else data.backward
    if reverse_flag then
      let to_ := facade.GetTarget edge
      let edge_weight := data.weight
      if query_heap.WasInserted to_ then
        if addWeight (query_heap.GetKey to_) edge_weight < weight then (true, query_heap)
        else StallAtNode_loop forward_direction facade weight query_heap rest
      else StallAtNode_loop forward_direction facade weight query_heap rest
    else StallAtNode_loop forward_direction facade weight query_heap rest

/-- `ManyToManyRouting<algorithm::CH>::StallAtNode<forward_direction>` (lines 77-102). -/
def StallAtNode (forward_direction : Bool) (facade : DataFacade) (node : NodeID)
    (weight : EdgeWeight) (query_heap : QueryHeap) : Bool × QueryHeap :=
  StallAtNode_loop forward_direction facade weight query_heap (facade.GetAdjacentEdgeRange node)

/-- The flag `StallAtNode` tests on an edge: `data.backward` in the forward search,
`data.forward` in the backward search. -/
def reverseFlag (forward_direction : Bool) (data : EdgeData) : Bool :=
  if forward_direction then data.backward else data.forward

/-- A facade with the single edge 0 from node 0 to node 1, of weight 2, traversable backward. -/
def oneEdgeFacade : DataFacade :=
  { GetAdjacentEdgeRange := fun node => if node = 0 then [0] else []
    GetEdgeData := fun _ => { weight := 2, forward := false, backward := true }
    GetTarget := fun _ => 1 }

/-- A heap in which node 1 was inserted with the given key. -/
def oneNodeHeap (key : EdgeWeight) : QueryHeap :=
  { WasInserted := fun node => decide (node = 1)
    GetKey := fun _ => key }

end osrm.engine.routing_algorithms

namespace osrm.engine.plugins

/-! ## Theorems -/

/-! ### Index arithmetic of the row-major table -/

theorem index_mod {n i j : Nat} (hj : j < n) : (i * n + j) % n = j := by
  rw [Nat.add_comm, Nat.add_mul_mod_self_right, Nat.mod_eq_of_lt hj]

theorem index_div {n i j : Nat} (hj : j < n) : (i * n + j) / n = i := by
  have hn : 0 < n := Nat.lt_of_le_of_lt (Nat.zero_le _) hj
  rw [Nat.add_comm, Nat.add_mul_div_right _ _ hn, Nat.div_eq_of_lt hj, Nat.zero_add]

theorem index_inj {n i j i' j' : Nat} (hj : j < n) (hj' : j' < n)
    (h : i * n + j = i' * n + j') : i = i' ∧ j = j' := by
  have h1 : i = i' := by
    have := congrArg (fun x => x / n) h
    simpa [index_div hj, index_div hj'] using this
  have h2 : j = j' := by
    have := congrArg (fun x => x % n) h
    simpa [index_mod hj, index_mod hj'] using this
  exact ⟨h1, h2⟩

theorem index_row {n i j d : Nat} (hj : j < n) :
    (n * d ≤ i * n + j ∧ i * n + j < n * d + n) ↔ i = d := by
  constructor
  · rintro ⟨h1, h2⟩
    have h3 : d ≤ i := by
      by_contra hc
      have : i + 1 ≤ d := by omega
      have := Nat.mul_le_mul_left n this
      nlinarith
    have h4 : i ≤ d := by
      by_contra hc
      have : d + 1 ≤ i := by omega
      have := Nat.mul_le_mul_left n this
      nlinarith
    omega
  · rintro rfl
    constructor
    · rw [Nat.mul_comm]; omega
    · rw [Nat.mul_comm]; omega

theorem index_lt {n i j : Nat} (hi : i < n) (hj : j < n) : i * n + j < n * n := by
  have : (i + 1) * n ≤ n * n := Nat.mul_le_mul_right n hi
  nlinarith

/-! ### The rewrite loop, entry by entry -/

theorem getElem?_set_map {α : Type} (l : List α) (i j : Nat) (a : α) :
    (l.set i a)[j]? = if j = i then l[j]?.map (fun _ => a) else l[j]? := by
  by_cases h : j = i
  · subst h
    rw [if_pos rfl, List.getElem?_set_self']
    rfl
  · rw [if_neg h, List.getElem?_set_ne (Ne.symm h)]

theorem map_const_ite {α : Type} (c : Prop) [Decidable c] (a b : α) (o : Option α) :
    Option.map (fun _ => a) (if c then Option.map (fun _ => b) o else o) =
      Option.map (fun _ => a) o := by
  split <;> cases o <;> rfl

theorem tfseLoopBody_getElem? (n s d : Nat) (t : List EdgeWeight) (f g : Nat) :
    (tfseLoopBody n s d t f)[g]? =
      if g = f ∧ blocked n s d f then t[g]?.map (fun _ => EdgeWeight_max) else t[g]? := by
  unfold tfseLoopBody blocked
  by_cases h3 : g = f
  · subst h3
    by_cases h1 : g % n = s
    all_goals by_cases h2 : n * d ≤ g ∧ g < n * d + n
    all_goals simp only [h1, h2, if_true, if_false, getElem?_set_map, true_and, or_true,
      true_or, or_self, and_self]
    all_goals cases t[g]? <;> rfl
  · by_cases h1 : f % n = s
    all_goals by_cases h2 : n * d ≤ f ∧ f < n * d + n
    all_goals simp only [h1, h2, h3, if_true, if_false, getElem?_set_map, false_and, and_self]

theorem tfseLoop_upTo_getElem? (n s d : Nat) (t : List EdgeWeight) (k g : Nat) :
    ((List.range k).foldl (tfseLoopBody n s d) t)[g]? =
      if g < k ∧ blocked n s d g then t[g]?.map (fun _ => EdgeWeight_max) else t[g]? := by
  induction k with
  | zero => simp
  | succ k ih =>
    rw [List.range_succ, List.foldl_append, List.foldl_cons, List.foldl_nil,
      tfseLoopBody_getElem?, ih]
    by_cases hg : g = k
    · subst hg
      by_cases hb : blocked n s d g <;> simp [hb]
    · have : g < k + 1 ↔ g < k := by omega
      simp [hg, this]

theorem tfseLoop_getElem? (n s d : Nat) (t : List EdgeWeight) (g : Nat) :
    (tfseLoop n s d t)[g]? =
      if blocked n s d g then t[g]?.map (fun _ => EdgeWeight_max) else t[g]? := by
  unfold tfseLoop
  rw [tfseLoop_upTo_getElem?]
  by_cases hg : g < t.length
  · simp [hg]
  · have : t[g]? = none := List.getElem?_eq_none (by omega)
    simp [this]

theorem tfseFinalWrites_getElem? (n s d : Nat) (t : List EdgeWeight) (g : Nat) :
    (tfseFinalWrites n s d t)[g]? =
      if g = s * n + d then t[g]?.map (fun _ => EdgeWeight_max)
      else if g = d * n + d ∨ g = d * n + s ∨ g = s * n + s then t[g]?.map (fun _ => 0)
      else t[g]? := by
  unfold tfseFinalWrites
  simp only [getElem?_set_map]
  generalize t[g]? = o
  by_cases h1 : g = s * n + d
  · rw [if_pos h1, if_pos h1]
    split_ifs <;> cases o <;> rfl
  · rw [if_neg h1, if_neg h1]
    by_cases h2 : g = d * n + d
    · rw [if_pos h2, if_pos (Or.inl h2)]
      split_ifs <;> cases o <;> rfl
    · rw [if_neg h2]
      by_cases h3 : g = d * n + s
      · rw [if_pos h3, if_pos (Or.inr (Or.inl h3))]
        split_ifs <;> cases o <;> rfl
      · rw [if_neg h3]
        simp only [h2, h3, false_or]

theorem fixedEndpoints_of_nonneg {parameters : TripParameters}
    (hs : 0 ≤ parameters.source) (hd : 0 ≤ parameters.destination) :
    fixedEndpoints parameters = true := by
  unfold fixedEndpoints
  simp only [Bool.and_eq_true, decide_eq_true_eq]
  omega

/-- Every entry of the rewritten table, for in-range endpoints (equal or not). -/
theorem entry_tfse_table (A : List EdgeWeight) (n : Nat) (parameters : TripParameters)
    (hlen : A.length = n * n)
    (hs0 : 0 ≤ parameters.source) (hd0 : 0 ≤ parameters.destination)
    (hs : parameters.source.toNat < n) (hd : parameters.destination.toNat < n)
    (i j : Nat) (hi : i < n) (hj : j < n) :
    entry (tfse_table A n parameters) n i j =
      if i = parameters.source.toNat ∧ j = parameters.destination.toNat then
        some EdgeWeight_max
      else if (i = parameters.destination.toNat ∧ j = parameters.destination.toNat) ∨
          (i = parameters.destination.toNat ∧ j = parameters.source.toNat) ∨
          (i = parameters.source.toNat ∧ j = parameters.source.toNat) then some 0
      else if j = parameters.source.toNat ∨ i = parameters.destination.toNat then
        some EdgeWeight_max
      else entry A n i j := by
  generalize hsv : parameters.source.toNat = s at *
  generalize hdv : parameters.destination.toNat = d at *
  have hidx : i * n + j < A.length := hlen ▸ index_lt hi hj
  have hA : A[i * n + j]? = some (A[i * n + j]) := List.getElem?_eq_getElem hidx
  unfold entry tfse_table HandleRequest_tables
  simp only [fixedEndpoints_of_nonneg hs0 hd0, if_true, hsv, hdv]
  rw [tfseFinalWrites_getElem?, tfseLoop_getElem?, hA]
  have e1 : i * n + j = s * n + d ↔ i = s ∧ j = d :=
    ⟨fun h => index_inj hj hd h, fun h => by rw [h.1, h.2]⟩
  have e2 : i * n + j = d * n + d ↔ i = d ∧ j = d :=
    ⟨fun h => index_inj hj hd h, fun h => by rw [h.1, h.2]⟩
  have e3 : i * n + j = d * n + s ↔ i = d ∧ j = s :=
    ⟨fun h => index_inj hj hs h, fun h => by rw [h.1, h.2]⟩
  have e4 : i * n + j = s * n + s ↔ i = s ∧ j = s :=
    ⟨fun h => index_inj hj hs h, fun h => by rw [h.1, h.2]⟩
  have e5 : blocked n s d (i * n + j) ↔ (j = s ∨ i = d) := by
    unfold blocked
    rw [index_mod hj, index_row hj]
  simp only [e1, e2, e3, e4, e5]
  by_cases c3 : j = s ∨ i = d
  · simp only [c3, if_true, Option.map_some']
  · simp only [c3, if_false, Option.map_some']

theorem tfseLoopBody_length (n s d : Nat) (t : List EdgeWeight) (f : Nat) :
    (tfseLoopBody n s d t f).length = t.length := by
  unfold tfseLoopBody
  split_ifs <;> simp

theorem tfseLoop_length (n s d : Nat) (t : List EdgeWeight) :
    (tfseLoop n s d t).length = t.length := by
  unfold tfseLoop
  generalize List.range t.length = fs
  induction fs generalizing t with
  | nil => rfl
  | cons f fs ih => rw [List.foldl_cons, ih, tfseLoopBody_length]

theorem tfse_table_length (A : List EdgeWeight) (n : Nat) (parameters : TripParameters) :
    (tfse_table A n parameters).length = A.length := by
  unfold tfse_table HandleRequest_tables tfseFinalWrites
  split_ifs <;> simp [tfseLoop_length]

/-- C1: fixed-endpoint adapter postcondition. For a table `A` of `n * n` entries and in-range
`source ≠ destination`, the four final writes of `HandleRequest` hit indices below `n * n`, and
the rewritten table has: the sentinel (maximum weight) in the source column outside rows
`source`, `destination`; the sentinel in the destination row outside columns `source`,
`destination`; `0` at `(source, source)`, `(destination, destination)` and
`(destination, source)`; the sentinel at `(source, destination)`. -/
theorem C1_fixed_endpoint_postcondition (A : List EdgeWeight) (n : Nat)
    (parameters : TripParameters) (hlen : A.length = n * n)
    (hs0 : 0 ≤ parameters.source) (hd0 : 0 ≤ parameters.destination)
    (hs : parameters.source.toNat < n) (hd : parameters.destination.toNat < n)
    (hne : parameters.source ≠ parameters.destination) :
    (parameters.source.toNat * n + parameters.source.toNat < n * n ∧
      parameters.destination.toNat * n + parameters.source.toNat < n * n ∧
      parameters.destination.toNat * n + parameters.destination.toNat < n * n ∧
      parameters.source.toNat * n + parameters.destination.toNat < n * n ∧
      (tfse_table A n parameters).length = n * n) ∧
    (∀ i, i < n → i ≠ parameters.source.toNat → i ≠ parameters.destination.toNat →
      entry (tfse_table A n parameters) n i parameters.source.toNat = some EdgeWeight_max) ∧
    (∀ j, j < n → j ≠ parameters.source.toNat → j ≠ parameters.destination.toNat →
      entry (tfse_table A n parameters) n parameters.destination.toNat j
        = some EdgeWeight_max) ∧
    entry (tfse_table A n parameters) n parameters.source.toNat parameters.source.toNat
      = some 0 ∧
    entry (tfse_table A n parameters) n parameters.destination.toNat
      parameters.destination.toNat = some 0 ∧
    entry (tfse_table A n parameters) n parameters.destination.toNat parameters.source.toNat
      = some 0 ∧
    entry (tfse_table A n parameters) n parameters.source.toNat parameters.destination.toNat
      = some EdgeWeight_max ∧
    EdgeWeight_max = INVALID_EDGE_WEIGHT := by
  have hsd : parameters.source.toNat ≠ parameters.destination.toNat := by omega
  have hds : parameters.destination.toNat ≠ parameters.source.toNat := Ne.symm hsd
  have key := entry_tfse_table A n parameters hlen hs0 hd0 hs hd
  refine ⟨⟨index_lt hs hs, index_lt hd hs, index_lt hd hd, index_lt hs hd, ?_⟩,
    ?_, ?_, ?_, ?_, ?_, ?_, rfl⟩
  · rw [tfse_table_length, hlen]
  · intro i hi his hid
    rw [key i _ hi hs]
    simp [his, hid, hsd]
  · intro j hj hjs hjd
    rw [key _ j hd hj]
    simp [hjs, hjd, hds]
  · rw [key _ _ hs hs]; simp [hsd]
  · rw [key _ _ hd hd]; simp [hds]
  · rw [key _ _ hd hs]; simp [hds]
  · rw [key _ _ hs hd]; simp

/-- C1, the documented scenario: on the 5x5 example with source 0 and destination 1 the
hypotheses hold, the rewritten table is the expected one, and the theorem applies. -/
theorem C1_fixed_endpoint_postcondition_witness :
    tfse_table exampleTable 5 ⟨0, 1⟩ =
      [0, EdgeWeight_max, 36, 34, 30,
       0, 0, EdgeWeight_max, EdgeWeight_max, EdgeWeight_max,
       EdgeWeight_max, 25, 0, 18, 32,
       EdgeWeight_max, 30, 18, 0, 15,
       EdgeWeight_max, 34, 32, 15, 0] ∧
    (∀ i, i < 5 → i ≠ 0 → i ≠ 1 →
      entry (tfse_table exampleTable 5 ⟨0, 1⟩) 5 i 0 = some EdgeWeight_max) :=
  ⟨by decide,
    (C1_fixed_endpoint_postcondition exampleTable 5 ⟨0, 1⟩ (by decide) (by decide) (by decide)
      (by decide) (by decide) (by decide)).2.1⟩

/-- C8: evaluation at `source = destination`. On the 5x5 example with source and destination
both 0, the write of line 237 lands on `(0, 0)` after the zeroing writes, so the rewritten table
holds the sentinel, not 0, at `(source, source) = (destination, destination)`. -/
theorem C8_equal_endpoints_self_entry :
    entry (tfse_table exampleTable 5 ⟨0, 0⟩) 5 0 0 = some EdgeWeight_max ∧
    entry (tfse_table exampleTable 5 ⟨0, 0⟩) 5 0 0 ≠ some 0 := by
  decide

/-- C9 as stated fails: on the 5x5 example with source 0 and destination 1 the entry `(0, 1)`
lies outside the source column and the destination row, yet it is rewritten (15 becomes the
sentinel). -/
theorem C9_frame_counterexample :
    ¬ (∀ i j, i < 5 → j < 5 → j ≠ 0 → i ≠ 1 →
        entry (tfse_table exampleTable 5 ⟨0, 1⟩) 5 i j = entry exampleTable 5 i j) := by
  intro h
  exact absurd (h 0 1 (by decide) (by decide) (by decide) (by decide)) (by decide)

/-- C9, amended: for in-range endpoints every entry `(i, j)` outside the source column and the
destination row, other than `(source, destination)`, is unchanged; the copy `result_table_` of
the original table is returned untouched; and when source or destination is negative the
rewritten table is the original one. -/
theorem C9_frame_amended (A : List EdgeWeight) (n : Nat) (parameters : TripParameters)
    (hlen : A.length = n * n) :
    (0 ≤ parameters.source → 0 ≤ parameters.destination →
      parameters.source.toNat < n → parameters.destination.toNat < n →
      ∀ i j, i < n → j < n → j ≠ parameters.source.toNat → i ≠ parameters.destination.toNat →
        ¬ (i = parameters.source.toNat ∧ j = parameters.destination.toNat) →
        entry (tfse_table A n parameters) n i j = entry A n i j) ∧
    (HandleRequest_tables A n parameters).2 = A ∧
    (parameters.source < 0 ∨ parameters.destination < 0 → tfse_table A n parameters = A) := by
  refine ⟨?_, ?_, ?_⟩
  · intro hs0 hd0 hs hd i j hi hj hjs hid hsd
    rw [entry_tfse_table A n parameters hlen hs0 hd0 hs hd i j hi hj]
    simp [hjs, hid, hsd]
  · unfold HandleRequest_tables
    split_ifs <;> rfl
  · intro hneg
    have : fixedEndpoints parameters = false := by
      unfold fixedEndpoints
      rcases hneg with h | h
      · have : ¬ parameters.source > -1 := by omega
        simp [this]
      · have : ¬ parameters.destination > -1 := by omega
        simp [this]
    unfold tfse_table HandleRequest_tables
    simp [this]

/-- C9 amended, instantiated on the 5x5 example with source 0 and destination 1: entry `(2, 3)`
is kept, and with no source given the table is unchanged. -/
theorem C9_frame_amended_witness :
    exampleTable.length = 5 * 5 ∧
    entry (tfse_table exampleTable 5 ⟨0, 1⟩) 5 2 3 = entry exampleTable 5 2 3 ∧
    tfse_table exampleTable 5 ⟨-1, 1⟩ = exampleTable :=
  ⟨by decide,
    (C9_frame_amended exampleTable 5 ⟨0, 1⟩ (by decide)).1 (by decide) (by decide) (by decide)
      (by decide) 2 3 (by decide) (by decide) (by decide) (by decide) (by decide),
    (C9_frame_amended exampleTable 5 ⟨-1, 1⟩ (by decide)).2.2 (Or.inl (by decide))⟩

/-! ### The no-sentinel shortcut -/

/-- The shortcut branch: a sentinel-free table yields the single component in original
order. -/
theorem shortcut_branch (runTarjan : List EdgeWeight → Nat → TarjanSCC)
    (n : Nat) (table : List EdgeWeight) (hn : 1 ≤ n) (hfree : INVALID_EDGE_WEIGHT ∉ table) :
    SplitUnaccessibleLocations runTarjan n table
        = { component := List.range n, range := [0, n] } ∧
    (SplitUnaccessibleLocations runTarjan n table).GetNumberOfComponents = 1 ∧
    (SplitUnaccessibleLocations runTarjan n table).assertions := by
  have h : SplitUnaccessibleLocations runTarjan n table
      = { component := List.range n, range := [0, n] } := by
    unfold SplitUnaccessibleLocations
    simp [hfree]
  rw [h]
  refine ⟨rfl, rfl, ?_⟩
  unfold SCC_Component.assertions
  refine ⟨by simpa using hn, ?_, ?_, ?_⟩
  · simp [List.max?, List.foldl]
  · simp [List.min?, List.foldl]
  · simp

/-- C4: for `n ≥ 1` and an `n * n` table without a sentinel entry, `SplitUnaccessibleLocations`
returns the single component `[0, ..., n-1]` in original order with `range = [0, n]`, whatever
the SCC routine would do, so `GetNumberOfComponents() = 1`. -/
theorem C4_no_sentinel_single_component (runTarjan : List EdgeWeight → Nat → TarjanSCC)
    (n : Nat) (table : List EdgeWeight) (hn : 1 ≤ n) (hlen : table.length = n * n)
    (hfree : INVALID_EDGE_WEIGHT ∉ table) :
    SplitUnaccessibleLocations runTarjan n table
        = { component := List.range n, range := [0, n] } ∧
    (SplitUnaccessibleLocations runTarjan n table).GetNumberOfComponents = 1 ∧
    (SplitUnaccessibleLocations runTarjan n table).assertions := by
  have _ := hlen
  exact shortcut_branch runTarjan n table hn hfree

/-- C4 on the 5x5 example, which has no sentinel entry. -/
theorem C4_no_sentinel_single_component_witness :
    1 ≤ 5 ∧ exampleTable.length = 5 * 5 ∧ INVALID_EDGE_WEIGHT ∉ exampleTable ∧
    SplitUnaccessibleLocations runTarjanSCC 5 exampleTable
      = { component := [0, 1, 2, 3, 4], range := [0, 5] } :=
  ⟨by decide, by decide, by decide,
    (C4_no_sentinel_single_component runTarjanSCC 5 exampleTable (by decide) (by decide)
      (by decide)).1⟩

/-! ### Route segments -/

theorem ComputeRoute_loop_roundtrip {PhantomNode : Type} [Inhabited PhantomNode]
    (sp : List PhantomNode) (trip : List NodeID) (rest : List NodeID)
    (segments : List (PhantomNode × PhantomNode)) :
    ComputeRoute_loop sp trip true rest segments =
      segments ++ (rest.zip (rest.tail ++ [trip.headD 0])).map
        (fun e => (sp.getD e.1 default, sp.getD e.2 default)) := by
  induction rest generalizing segments with
  | nil => simp [ComputeRoute_loop]
  | cons a rest ih =>
    cases rest with
    | nil => simp [ComputeRoute_loop]
    | cons b rest =>
      rw [ComputeRoute_loop]
      simp only [Bool.not_true, Bool.false_and, Bool.false_eq_true, if_false]
      rw [ih]
      simp

theorem ComputeRoute_loop_open {PhantomNode : Type} [Inhabited PhantomNode]
    (sp : List PhantomNode) (trip : List NodeID) (rest : List NodeID)
    (segments : List (PhantomNode × PhantomNode)) :
    ComputeRoute_loop sp trip false rest segments =
      segments ++ (rest.zip rest.tail).map
        (fun e => (sp.getD e.1 default, sp.getD e.2 default)) := by
  induction rest generalizing segments with
  | nil => simp [ComputeRoute_loop]
  | cons a rest ih =>
    cases rest with
    | nil => simp [ComputeRoute_loop]
    | cons b rest =>
      rw [ComputeRoute_loop]
      simp only [Bool.not_false, Bool.true_and, List.isEmpty_cons, Bool.false_eq_true, if_false]
      rw [ih]
      simp

theorem zip_tail_eq_range (t : List NodeID) :
    t.zip t.tail = (List.range (t.length - 1)).map (fun i => (t.getD i 0, t.getD (i + 1) 0)) := by
  apply List.ext_getElem
  · simp
  · intro i h1 h2
    simp only [List.length_zip, List.length_tail] at h1
    have hi : i < t.length := by omega
    have hi1 : i + 1 < t.length := by omega
    simp [List.getElem_zip, List.getD_eq_getElem?_getD, List.getElem?_eq_getElem hi,
      List.getElem?_eq_getElem hi1]

theorem zip_cyclic_eq_range (t : List NodeID) :
    t.zip (t.tail ++ [t.headD 0]) =
      (List.range t.length).map (fun i => (t.getD i 0, t.getD ((i + 1) % t.length) 0)) := by
  apply List.ext_getElem
  · cases t <;> simp
  · intro i h1 h2
    have hi : i < t.length := by
      simp only [List.length_zip] at h1
      omega
    simp only [List.getElem_zip, List.getElem_map, List.getElem_range,
      List.getD_eq_getElem?_getD, List.getElem?_eq_getElem hi, Option.getD_some, Prod.mk.injEq,
      true_and]
    by_cases hlast : i + 1 < t.length
    · rw [Nat.mod_eq_of_lt hlast, List.getElem?_eq_getElem hlast, Option.getD_some,
        List.getElem_append_left (by simpa using (by omega : i < t.length - 1))]
      simp
    · have hn : i + 1 = t.length := by omega
      rw [hn, Nat.mod_self]
      cases t with
      | nil => simp at hi
      | cons a t =>
        simp only [List.length_cons, Nat.add_right_cancel_iff] at hn
        simp [hn, List.getElem_append_right]

/-- C5: the segment list built by `ComputeRoute`. With `roundtrip = true` it is
`[(t[i], t[(i+1) mod n]) for i = 0..n-1]` (the last location is linked back to the first); with
`roundtrip = false` it is `[(t[i], t[i+1]) for i = 0..n-2]` (no closing segment). Each pair
holds the snapped phantom nodes at those indices, in that order. -/
theorem C5_route_segments {PhantomNode : Type} [Inhabited PhantomNode]
    (snapped_phantoms : List PhantomNode) (trip : List NodeID) :
    ComputeRoute_segments snapped_phantoms trip true =
      (List.range trip.length).map (fun i =>
        (snapped_phantoms.getD (trip.getD i 0) default,
          snapped_phantoms.getD (trip.getD ((i + 1) % trip.length) 0) default)) ∧
    ComputeRoute_segments snapped_phantoms trip false =
      (List.range (trip.length - 1)).map (fun i =>
        (snapped_phantoms.getD (trip.getD i 0) default,
          snapped_phantoms.getD (trip.getD (i + 1) 0) default)) := by
  unfold ComputeRoute_segments
  rw [ComputeRoute_loop_roundtrip, ComputeRoute_loop_open, zip_cyclic_eq_range,
    zip_tail_eq_range]
  simp [List.map_map, Function.comp_def]

/-! ### Builder selection -/

/-- C7: builder selection for component `k` depends on the component size
`c = range[k+1] - range[k]` only. A component of size 1 that lies inside `component` yields
exactly `[component[range[k]]]` with no builder called; for `2 ≤ c < 10` the brute-force builder
is called on the component; for `c ≥ 10` the farthest-insertion builder is called. Hence the
brute-force builder never runs on 10 or more locations. -/
theorem C7_builder_selection (bruteForce farthestInsertion : TripBuilder)
    (parameters : TripParameters) (number_of_locations : Nat)
    (tfse result_table : List EdgeWeight) (scc : SCC_Component) (k : Nat)
    (hin : scc.range.getD (k + 1) 0 ≤ scc.component.length) :
    (scc.range.getD (k + 1) 0 - scc.range.getD k 0 = 1 →
      HandleRequest_sccRoute bruteForce farthestInsertion parameters number_of_locations
          tfse result_table scc k
        = (BuilderCall.noBuilder, [scc.component.getD (scc.range.getD k 0) 0])) ∧
    (2 ≤ scc.range.getD (k + 1) 0 - scc.range.getD k 0 →
      scc.range.getD (k + 1) 0 - scc.range.getD k 0 < 10 →
      HandleRequest_sccRoute bruteForce farthestInsertion parameters number_of_locations
          tfse result_table scc k
        = (BuilderCall.BruteForceTrip,
            bruteForce ((scc.component.drop (scc.range.getD k 0)).take
                (scc.range.getD (k + 1) 0 - scc.range.getD k 0))
              number_of_locations (if fixedEndpoints parameters then tfse else result_table))) ∧
    (10 ≤ scc.range.getD (k + 1) 0 - scc.range.getD k 0 →
      HandleRequest_sccRoute bruteForce farthestInsertion parameters number_of_locations
          tfse result_table scc k
        = (BuilderCall.FarthestInsertionTrip,
            farthestInsertion ((scc.component.drop (scc.range.getD k 0)).take
                (scc.range.getD (k + 1) 0 - scc.range.getD k 0))
              number_of_locations (if fixedEndpoints parameters then tfse else result_table))) ∧
    ((HandleRequest_sccRoute bruteForce farthestInsertion parameters number_of_locations
          tfse result_table scc k).1 = BuilderCall.BruteForceTrip →
      scc.range.getD (k + 1) 0 - scc.range.getD k 0 < 10) := by
  generalize hc : scc.range.getD (k + 1) 0 - scc.range.getD k 0 = c
  generalize hr : scc.range.getD k 0 = r at *
  refine ⟨?_, ?_, ?_, ?_⟩
  · intro h1
    subst h1
    have hlt : r < scc.component.length := by omega
    unfold HandleRequest_sccRoute
    simp only [hc, hr, gt_iff_lt, Nat.lt_irrefl, if_false, Prod.mk.injEq, true_and]
    rw [List.getD_eq_getElem?_getD, List.getElem?_eq_getElem hlt, Option.getD_some,
      List.drop_eq_getElem_cons hlt]
    rfl
  · intro h2 h10
    unfold HandleRequest_sccRoute
    have : c > 1 := by omega
    simp only [hc, hr, this, if_true, BF_MAX_FEASABLE, h10]
    split_ifs <;> rfl
  · intro h10
    unfold HandleRequest_sccRoute
    have h1 : c > 1 := by omega
    have h2 : ¬ c < 10 := by omega
    simp only [hc, hr, h1, if_true, BF_MAX_FEASABLE, h2, if_false]
    split_ifs <;> rfl
  · unfold HandleRequest_sccRoute
    simp only [hc, hr, BF_MAX_FEASABLE]
    split_ifs <;> simp_all

/-- C7 on a two-component partition of 12 locations: a singleton and a component of 11. -/
theorem C7_builder_selection_witness :
    HandleRequest_sccRoute (fun r _ _ => r) (fun r _ _ => r.reverse) ⟨-1, -1⟩ 12 [] []
        { component := [5, 0, 1, 2, 3, 4, 6, 7, 8, 9, 10, 11], range := [0, 1, 12] } 0
      = (BuilderCall.noBuilder, [5]) :=
  (C7_builder_selection (fun r _ _ => r) (fun r _ _ => r.reverse) ⟨-1, -1⟩ 12 [] []
    { component := [5, 0, 1, 2, 3, 4, 6, 7, 8, 9, 10, 11], range := [0, 1, 12] } 0
    (by decide)).1 (by decide)

/-! ### The general branch of the partitioner as a counting sort -/

theorem sizesBelow_succ (scc : TarjanSCC) (k : Nat) :
    sizesBelow scc (k + 1) = sizesBelow scc k + scc.GetComponentSize k := by
  simp [sizesBelow, List.range_succ]

theorem sizesBelow_mono (scc : TarjanSCC) {a b : Nat} (h : a ≤ b) :
    sizesBelow scc a ≤ sizesBelow scc b := by
  induction b with
  | zero => simp [Nat.le_zero.mp h]
  | succ b ih =>
    rcases Nat.lt_or_ge a (b + 1) with hlt | hge
    · have := ih (by omega)
      rw [sizesBelow_succ]
      omega
    · have : a = b + 1 := by omega
      rw [this]

theorem prefixLoop_eq (scc : TarjanSCC) (c : Nat) :
    prefixLoop scc c =
      ((List.range c).map (sizesBelow scc), (List.range c).map (sizesBelow scc),
        sizesBelow scc c) := by
  unfold prefixLoop
  induction c with
  | zero => simp [sizesBelow]
  | succ c ih =>
    rw [List.range_succ, List.foldl_append, ih]
    simp [prefixLoopBody, sizesBelow_succ]

theorem length_flatMap_range {α : Type} (scc : TarjanSCC) (g : Nat → List α) (c : Nat)
    (hg : ∀ k, k < c → (g k).length = scc.GetComponentSize k) :
    ((List.range c).flatMap g).length = sizesBelow scc c := by
  induction c with
  | zero => simp [sizesBelow]
  | succ c ih =>
    rw [List.range_succ, List.flatMap_append, List.length_append, List.flatMap_singleton,
      ih (fun k hk => hg k (by omega)), hg c (by omega), sizesBelow_succ]

theorem flatMap_range_congr {α : Type} (g h : Nat → List α) (c : Nat)
    (hgh : ∀ k, k < c → g k = h k) :
    (List.range c).flatMap g = (List.range c).flatMap h := by
  induction c with
  | zero => simp
  | succ c ih =>
    rw [List.range_succ, List.flatMap_append, List.flatMap_append, List.flatMap_singleton,
      List.flatMap_singleton, ih (fun k hk => hgh k (by omega)), hgh c (by omega)]

/-- Writing at offset `j` of slot `k0` of a slotted vector rewrites that slot only. -/
theorem flatMap_range_set {α : Type} (scc : TarjanSCC) (g : Nat → List α) (c k0 j : Nat) (v : α)
    (hg : ∀ k, k < c → (g k).length = scc.GetComponentSize k)
    (hk0 : k0 < c) (hj : j < scc.GetComponentSize k0) :
    ((List.range c).flatMap g).set (sizesBelow scc k0 + j) v =
      (List.range c).flatMap (fun k => if k = k0 then (g k).set j v else g k) := by
  induction c with
  | zero => omega
  | succ c ih =>
    have hlen := length_flatMap_range scc g c (fun k hk => hg k (by omega))
    rw [List.range_succ, List.flatMap_append, List.flatMap_append, List.flatMap_singleton,
      List.flatMap_singleton]
    rcases Nat.lt_or_ge k0 c with hlt | hge
    · have hpos : sizesBelow scc k0 + j < ((List.range c).flatMap g).length := by
        rw [hlen]
        have := sizesBelow_mono scc (show k0 + 1 ≤ c by omega)
        rw [sizesBelow_succ] at this
        omega
      rw [List.set_append_left _ _ hpos, ih (fun k hk => hg k (by omega)) hlt,
        if_neg (by omega : ¬ c = k0)]
    · have hk : k0 = c := by omega
      subst hk
      rw [List.set_append_right _ _ (by rw [hlen]; omega), hlen, Nat.add_sub_cancel_left,
        if_pos rfl]
      congr 1
      exact flatMap_range_congr _ _ _ (fun k hk => by rw [if_neg (by omega : ¬ k = k0)])

theorem bucket_succ (scc : TarjanSCC) (m k : Nat) :
    bucket scc (m + 1) k =
      if scc.GetComponentID m = k then bucket scc m k ++ [m] else bucket scc m k := by
  unfold bucket
  rw [List.range_succ, List.filter_append]
  by_cases h : scc.GetComponentID m = k <;> simp [h]

theorem bucket_length_mono (scc : TarjanSCC) (k : Nat) {a b : Nat} (h : a ≤ b) :
    (bucket scc a k).length ≤ (bucket scc b k).length := by
  induction b with
  | zero => simp [Nat.le_zero.mp h]
  | succ b ih =>
    rcases Nat.lt_or_ge a (b + 1) with hlt | hge
    · have := ih (by omega)
      rw [bucket_succ]
      split_ifs <;> simp <;> omega
    · have : a = b + 1 := by omega
      rw [this]

theorem filter_lt_succ_perm (f : Nat → Nat) (c : Nat) (l : List Nat) :
    (l.filter (fun i => decide (f i < c)) ++ l.filter (fun i => decide (f i = c))).Perm
      (l.filter (fun i => decide (f i < c + 1))) := by
  induction l with
  | nil => simp
  | cons a l ih =>
    rcases Nat.lt_trichotomy (f a) c with h | h | h
    · have e1 : decide (f a < c) = true := decide_eq_true h
      have e2 : decide (f a = c) = false := decide_eq_false (by omega)
      have e3 : decide (f a < c + 1) = true := decide_eq_true (by omega)
      simp only [List.filter_cons, e1, e2, e3, if_true, Bool.false_eq_true, if_false,
        List.cons_append]
      exact List.Perm.cons a ih
    · have e1 : decide (f a < c) = false := decide_eq_false (by omega)
      have e2 : decide (f a = c) = true := decide_eq_true h
      have e3 : decide (f a < c + 1) = true := decide_eq_true (by omega)
      simp only [List.filter_cons, e1, e2, e3, if_true, Bool.false_eq_true, if_false]
      exact List.perm_middle.trans (List.Perm.cons a ih)
    · have e1 : decide (f a < c) = false := decide_eq_false (by omega)
      have e2 : decide (f a = c) = false := decide_eq_false (by omega)
      have e3 : decide (f a < c + 1) = false := decide_eq_false (by omega)
      simp only [List.filter_cons, e1, e2, e3, Bool.false_eq_true, if_false]
      exact ih

/-- Grouping a list by a key below `c` permutes the elements whose key is below `c`. -/
theorem flatMap_filter_perm (f : Nat → Nat) (c : Nat) (l : List Nat) :
    ((List.range c).flatMap (fun k => l.filter (fun i => decide (f i = k)))).Perm
      (l.filter (fun i => decide (f i < c))) := by
  induction c with
  | zero => simp
  | succ c ih =>
    rw [List.range_succ, List.flatMap_append, List.flatMap_singleton]
    exact (List.Perm.append_right _ ih).trans (filter_lt_succ_perm f c l)

theorem flatMap_bucket_perm (scc : TarjanSCC) (n c : Nat)
    (hid : ∀ i, i < n → scc.GetComponentID i < c) :
    ((List.range c).flatMap (bucket scc n)).Perm (List.range n) := by
  have h := flatMap_filter_perm scc.GetComponentID c (List.range n)
  have hall : (List.range n).filter (fun i => decide (scc.GetComponentID i < c))
      = List.range n := by
    rw [List.filter_eq_self]
    intro i hi
    simpa using hid i (List.mem_range.mp hi)
  rw [hall] at h
  exact h

theorem sizesBelow_total (scc : TarjanSCC) (n c : Nat)
    (hid : ∀ i, i < n → scc.GetComponentID i < c)
    (hsize : ∀ k, k < c → scc.GetComponentSize k = (bucket scc n k).length) :
    sizesBelow scc c = n := by
  rw [← length_flatMap_range scc (bucket scc n) c (fun k hk => (hsize k hk).symm),
    (flatMap_bucket_perm scc n c hid).length_eq, List.length_range]

theorem flatMap_replicate (scc : TarjanSCC) (c : Nat) :
    (List.range c).flatMap (fun k => List.replicate (scc.GetComponentSize k) (0 : NodeID))
      = List.replicate (sizesBelow scc c) 0 := by
  induction c with
  | zero => simp [sizesBelow]
  | succ c ih =>
    rw [List.range_succ, List.flatMap_append, List.flatMap_singleton, ih, sizesBelow_succ,
      List.replicate_add]

theorem partialSlot_length (scc : TarjanSCC) (n m k : Nat) (hm : m ≤ n)
    (hsize : scc.GetComponentSize k = (bucket scc n k).length) :
    (partialSlot scc m k).length = scc.GetComponentSize k := by
  have := bucket_length_mono scc k hm
  unfold partialSlot
  rw [List.length_append, List.length_replicate]
  omega

theorem partialSlot_step (scc : TarjanSCC) (n m k : Nat) (hm : m < n)
    (hsize : scc.GetComponentSize k = (bucket scc n k).length) :
    (if k = scc.GetComponentID m then
        (partialSlot scc m k).set (bucket scc m (scc.GetComponentID m)).length m
      else partialSlot scc m k) = partialSlot scc (m + 1) k := by
  by_cases hk : k = scc.GetComponentID m
  · subst hk
    rw [if_pos rfl]
    have hle := bucket_length_mono scc (scc.GetComponentID m) (show m + 1 ≤ n by omega)
    unfold partialSlot
    rw [bucket_succ, if_pos rfl] at hle ⊢
    rw [List.length_append, List.length_singleton] at hle ⊢
    rw [List.set_append_right _ _ (Nat.le_refl _), Nat.sub_self]
    obtain ⟨r, hr⟩ : ∃ r, scc.GetComponentSize (scc.GetComponentID m)
        - (bucket scc m (scc.GetComponentID m)).length = r + 1 := ⟨_, (Nat.succ_pred_eq_of_pos
          (by omega)).symm⟩
    have hr' : scc.GetComponentSize (scc.GetComponentID m)
        - ((bucket scc m (scc.GetComponentID m)).length + 1) = r := by omega
    rw [hr, hr', List.replicate_succ, List.set_cons_zero, List.append_assoc]
    rfl
  · rw [if_neg hk]
    unfold partialSlot
    rw [bucket_succ, if_neg (Ne.symm hk)]

theorem map_range_set (h : Nat → Nat) (c k0 v : Nat) :
    ((List.range c).map h).set k0 v = (List.range c).map (fun k => if k = k0 then v else h k) := by
  apply List.ext_getElem
  · simp
  · intro i h1 h2
    simp only [List.length_map, List.length_range] at h2
    simp only [List.getElem_set, List.getElem_map, List.getElem_range]
    by_cases hi : k0 = i
    · simp [hi]
    · simp [hi, Ne.symm hi]

/-- State of the second loop after the nodes below `m` have been stored. -/
theorem bucketLoop_upTo (scc : TarjanSCC) (n c : Nat)
    (hid : ∀ i, i < n → scc.GetComponentID i < c)
    (hsize : ∀ k, k < c → scc.GetComponentSize k = (bucket scc n k).length)
    (m : Nat) (hm : m ≤ n) :
    (List.range m).foldl (bucketLoopBody scc)
        (List.replicate n 0, (List.range c).map (sizesBelow scc)) =
      ((List.range c).flatMap (partialSlot scc m),
        (List.range c).map (fun k => sizesBelow scc k + (bucket scc m k).length)) := by
  induction m with
  | zero =>
    have h0 : (List.range c).flatMap (partialSlot scc 0)
        = (List.range c).flatMap
            (fun k => List.replicate (scc.GetComponentSize k) (0 : NodeID)) :=
      flatMap_range_congr _ _ _ (fun k _ => by simp [partialSlot, bucket])
    rw [h0, flatMap_replicate, sizesBelow_total scc n c hid hsize]
    simp [bucket]
  | succ m ih =>
    have hk0 := hid m (by omega)
    rw [List.range_succ, List.foldl_append, ih (by omega), List.foldl_cons, List.foldl_nil]
    unfold bucketLoopBody
    have hslot : ((List.range c).map
        (fun k => sizesBelow scc k + (bucket scc m k).length)).getD (scc.GetComponentID m) 0
        = sizesBelow scc (scc.GetComponentID m)
          + (bucket scc m (scc.GetComponentID m)).length := by
      rw [List.getD_eq_getElem?_getD, List.getElem?_eq_getElem (by simpa using hk0)]
      simp
    simp only [hslot]
    have hlt : (bucket scc m (scc.GetComponentID m)).length
        < scc.GetComponentSize (scc.GetComponentID m) := by
      have := bucket_length_mono scc (scc.GetComponentID m) (show m + 1 ≤ n by omega)
      rw [bucket_succ, if_pos rfl, List.length_append, List.length_singleton] at this
      rw [hsize _ hk0]
      omega
    rw [flatMap_range_set scc (partialSlot scc m) c _ _ m
      (fun k hk => partialSlot_length scc n m k (by omega) (hsize k hk)) hk0 hlt,
      map_range_set]
    congr 1
    · exact flatMap_range_congr _ _ _ (fun k hk => partialSlot_step scc n m k (by omega)
        (hsize k hk))
    · apply List.map_congr_left
      intro k _
      rw [bucket_succ]
      by_cases hk : k = scc.GetComponentID m
      · subst hk
        simp [Nat.add_assoc]
      · simp [hk, Ne.symm hk]

/-- Closed form of the general branch: the nodes grouped by component ID, each group in
increasing order, and the running totals of the component sizes followed by the node count. -/
theorem SplitUnaccessibleLocations_general_eq (scc : TarjanSCC) (n : Nat)
    (hid : ∀ i, i < n → scc.GetComponentID i < scc.GetNumberOfComponents)
    (hsize : ∀ k, k < scc.GetNumberOfComponents →
      scc.GetComponentSize k = (bucket scc n k).length) :
    SplitUnaccessibleLocations_general n scc =
      { component := (List.range scc.GetNumberOfComponents).flatMap (bucket scc n),
        range := (List.range scc.GetNumberOfComponents).map (sizesBelow scc) ++ [n] } := by
  unfold SplitUnaccessibleLocations_general bucketLoop
  simp only [prefixLoop_eq, List.length_replicate]
  rw [bucketLoop_upTo scc n _ hid hsize n (Nat.le_refl n)]
  congr 1
  apply flatMap_range_congr
  intro k hk
  unfold partialSlot
  rw [← hsize k hk, Nat.sub_self]
  simp

theorem boundaries_getD (scc : TarjanSCC) (n c k : Nat) (hk : k ≤ c)
    (htotal : sizesBelow scc c = n) :
    ((List.range c).map (sizesBelow scc) ++ [n]).getD k 0 = sizesBelow scc k := by
  rw [List.getD_eq_getElem?_getD]
  rcases Nat.lt_or_ge k c with hlt | hge
  · rw [List.getElem?_append_left (by simpa using hlt),
      List.getElem?_eq_getElem (by simpa using hlt)]
    simp
  · have : k = c := by omega
    subst this
    rw [List.getElem?_append_right (by simp)]
    simp [htotal]

theorem boundaries_le (scc : TarjanSCC) (n c : Nat) (htotal : sizesBelow scc c = n) :
    ∀ b ∈ (List.range c).map (sizesBelow scc) ++ [n], b ≤ n := by
  intro b hb
  rcases List.mem_append.mp hb with h | h
  · obtain ⟨k, hk, rfl⟩ := List.mem_map.mp h
    rw [← htotal]
    exact sizesBelow_mono scc (Nat.le_of_lt (List.mem_range.mp hk))
  · simp at h
    omega

theorem boundaries_pairwise (scc : TarjanSCC) (n c : Nat) (htotal : sizesBelow scc c = n) :
    List.Pairwise (fun a b => a ≤ b) ((List.range c).map (sizesBelow scc) ++ [n]) := by
  rw [List.pairwise_append]
  refine ⟨?_, List.pairwise_singleton _ _, ?_⟩
  · rw [List.pairwise_map]
    exact (List.pairwise_lt_range c).imp (fun h => sizesBelow_mono scc (Nat.le_of_lt h))
  · intro a ha b hb
    have hb' : b = n := by simpa using hb
    rw [hb']
    exact boundaries_le scc n c htotal a (List.mem_append_left _ ha)

/-- The structural facts about the result of the general branch. -/
theorem general_branch_invariant (scc : TarjanSCC) (n : Nat) (hn : 1 ≤ n)
    (hid : ∀ i, i < n → scc.GetComponentID i < scc.GetNumberOfComponents)
    (hsize : ∀ k, k < scc.GetNumberOfComponents →
      scc.GetComponentSize k = (bucket scc n k).length) :
    (SplitUnaccessibleLocations_general n scc).component.Perm (List.range n) ∧
    List.Pairwise (fun a b => a ≤ b) (SplitUnaccessibleLocations_general n scc).range ∧
    (SplitUnaccessibleLocations_general n scc).range.head? = some 0 ∧
    (SplitUnaccessibleLocations_general n scc).range.getLast? = some n ∧
    (SplitUnaccessibleLocations_general n scc).range.length = scc.GetNumberOfComponents + 1 ∧
    (∀ k, k < scc.GetNumberOfComponents →
      (SplitUnaccessibleLocations_general n scc).range.getD (k + 1) 0
        - (SplitUnaccessibleLocations_general n scc).range.getD k 0
        = scc.GetComponentSize k) ∧
    (SplitUnaccessibleLocations_general n scc).assertions := by
  have htotal := sizesBelow_total scc n _ hid hsize
  have hc : 1 ≤ scc.GetNumberOfComponents := by
    have := hid 0 (by omega)
    omega
  have hperm := flatMap_bucket_perm scc n _ hid
  rw [SplitUnaccessibleLocations_general_eq scc n hid hsize]
  have hhead : ((List.range scc.GetNumberOfComponents).map (sizesBelow scc) ++ [n]).head?
      = some 0 := by
    obtain ⟨c, hc'⟩ : ∃ c, scc.GetNumberOfComponents = c + 1 := ⟨_, (Nat.succ_pred_eq_of_pos
      hc).symm⟩
    rw [hc', List.range_succ_eq_map]
    simp [sizesBelow]
  refine ⟨hperm, boundaries_pairwise scc n _ htotal, hhead, List.getLast?_concat _, by simp,
    ?_, ?_⟩
  · intro k hk
    simp only []
    rw [boundaries_getD scc n _ (k + 1) (by omega) htotal,
      boundaries_getD scc n _ k (by omega) htotal, sizesBelow_succ]
    omega
  · unfold SCC_Component.assertions
    simp only []
    refine ⟨?_, ?_, ?_, boundaries_pairwise scc n _ htotal⟩
    · rw [hperm.length_eq, List.length_range]
      omega
    · rw [List.max?_eq_some_iff', hperm.length_eq, List.length_range]
      exact ⟨by simp, boundaries_le scc n _ htotal⟩
    · rw [List.min?_eq_some_iff']
      refine ⟨?_, fun b _ => Nat.zero_le b⟩
      have := List.mem_of_mem_head? hhead
      exact this

/-- C3, amended: partition structural invariant. For `n ≥ 1` and an `n * n` table, assume the SCC
routine's report on that table has `GetComponentID(i) < C` for every `i < n` and
`GetComponentSize(j)` equal to the number of `i < n` with `GetComponentID(i) = j`. Then the
result of `SplitUnaccessibleLocations` has `component` a permutation of `0..n-1`, and `range`
non-decreasing with first element 0 and last element `n`; the four constructor assertions hold;
and `range` has `C + 1` entries with `range[k+1] - range[k] = GetComponentSize(k)` whenever the
SCC routine was run (the table holds a sentinel) or reports the one component that the shortcut
branch returns. -/
theorem C3_partition_invariant (runTarjan : List EdgeWeight → Nat → TarjanSCC)
    (n : Nat) (table : List EdgeWeight) (hn : 1 ≤ n) (hlen : table.length = n * n)
    (hid : ∀ i, i < n →
      (runTarjan table n).GetComponentID i < (runTarjan table n).GetNumberOfComponents)
    (hsize : ∀ j, j < (runTarjan table n).GetNumberOfComponents →
      (runTarjan table n).GetComponentSize j
        = ((List.range n).filter (fun i => (runTarjan table n).GetComponentID i = j)).length) :
    (SplitUnaccessibleLocations runTarjan n table).component.Perm (List.range n) ∧
    List.Pairwise (fun a b => a ≤ b) (SplitUnaccessibleLocations runTarjan n table).range ∧
    (SplitUnaccessibleLocations runTarjan n table).range.head? = some 0 ∧
    (SplitUnaccessibleLocations runTarjan n table).range.getLast? = some n ∧
    (SplitUnaccessibleLocations runTarjan n table).assertions ∧
    (INVALID_EDGE_WEIGHT ∈ table ∨ (runTarjan table n).GetNumberOfComponents = 1 →
      (SplitUnaccessibleLocations runTarjan n table).range.length
        = (runTarjan table n).GetNumberOfComponents + 1 ∧
      ∀ k, k < (runTarjan table n).GetNumberOfComponents →
        (SplitUnaccessibleLocations runTarjan n table).range.getD (k + 1) 0
          - (SplitUnaccessibleLocations runTarjan n table).range.getD k 0
          = (runTarjan table n).GetComponentSize k) := by
  by_cases hfree : INVALID_EDGE_WEIGHT ∉ table
  · obtain ⟨heq, -, hassert⟩ := shortcut_branch runTarjan n table hn hfree
    rw [heq] at hassert ⊢
    refine ⟨List.Perm.refl _, by simp, rfl, rfl, hassert, ?_⟩
    rintro (h | h)
    · exact absurd h hfree
    · refine ⟨by simp [h], ?_⟩
      intro k hk
      have hk0 : k = 0 := by omega
      subst hk0
      have htotal := sizesBelow_total (runTarjan table n) n _ hid hsize
      rw [h] at htotal
      simpa [sizesBelow] using htotal.symm
  · have hgen : SplitUnaccessibleLocations runTarjan n table
        = SplitUnaccessibleLocations_general n (runTarjan table n) := by
      unfold SplitUnaccessibleLocations
      rw [if_neg hfree]
    have _ := hlen
    rw [hgen]
    obtain ⟨h1, h2, h3, h4, h5, h6, h7⟩ :=
      general_branch_invariant (runTarjan table n) n hn hid hsize
    exact ⟨h1, h2, h3, h4, h7, fun _ => ⟨h5, h6⟩⟩

/-! ### Closed tours over the rewritten table and open paths over the original one -/

theorem pathEdges_eq_range (p : List Nat) :
    pathEdges p = (List.range (p.length - 1)).map (fun i => (p.getD i 0, p.getD (i + 1) 0)) :=
  zip_tail_eq_range p

theorem cycleEdges_eq_range (p : List Nat) :
    cycleEdges p =
      (List.range p.length).map (fun i => (p.getD i 0, p.getD ((i + 1) % p.length) 0)) := by
  unfold cycleEdges
  cases p with
  | nil => simp
  | cons a l =>
    rw [← zip_cyclic_eq_range, List.rotate_cons_succ, List.rotate_zero]
    rfl

theorem cycleEdges_split (p : List Nat) (hp : p ≠ []) :
    cycleEdges p = pathEdges p ++ [(p.getD (p.length - 1) 0, p.getD 0 0)] := by
  obtain ⟨m, hm⟩ : ∃ m, p.length = m + 1 :=
    ⟨_, (Nat.succ_pred_eq_of_pos (List.length_pos.mpr hp)).symm⟩
  rw [cycleEdges_eq_range, pathEdges_eq_range, hm, List.range_succ, List.map_append,
    Nat.add_sub_cancel]
  congr 1
  · apply List.map_congr_left
    intro i hi
    rw [Nat.mod_eq_of_lt (by have := List.mem_range.mp hi; omega)]
  · simp

theorem cycleEdges_rotate (p : List Nat) (k : Nat) :
    cycleEdges (p.rotate k) = (cycleEdges p).rotate k := by
  unfold cycleEdges
  rw [List.zip_eq_zipWith, List.zip_eq_zipWith, List.zipWith_rotate_distrib _ _ _ _ (by simp),
    List.rotate_rotate, List.rotate_rotate, Nat.add_comm]

theorem cycleCost_rotate (table : List EdgeWeight) (n : Nat) (p : List Nat) (k : Nat) :
    cycleCost table n (p.rotate k) = cycleCost table n p := by
  unfold cycleCost
  rw [cycleEdges_rotate]
  exact ((List.rotate_perm _ k).map _).sum_eq

theorem cycleUsable_rotate (table : List EdgeWeight) (n : Nat) (p : List Nat) (k : Nat) :
    cycleUsable table n (p.rotate k) ↔ cycleUsable table n p := by
  unfold cycleUsable
  rw [cycleEdges_rotate]
  simp only [List.mem_rotate]

theorem getD_inj {q : List Nat} (hq : q.Nodup) {i j : Nat} (hi : i < q.length)
    (hj : j < q.length) (h : q.getD i 0 = q.getD j 0) : i = j := by
  rw [List.getD_eq_getElem?_getD, List.getD_eq_getElem?_getD, List.getElem?_eq_getElem hi,
    List.getElem?_eq_getElem hj] at h
  exact (hq.getElem_inj_iff).mp h

theorem getD_lt_of_perm {q : List Nat} {n : Nat} (hq : q.Perm (List.range n)) {i : Nat}
    (hi : i < q.length) : q.getD i 0 < n := by
  rw [List.getD_eq_getElem?_getD, List.getElem?_eq_getElem hi]
  exact List.mem_range.mp ((hq.mem_iff).mp (List.getElem_mem hi))

/-- Edge costs of the rewritten table for in-range endpoints given as naturals. -/
theorem edgeCost_tfse_table (A : List EdgeWeight) (n s d : Nat) (hlen : A.length = n * n)
    (hs : s < n) (hd : d < n) (x y : Nat) (hx : x < n) (hy : y < n) :
    edgeCost (tfse_table A n ⟨(s : Int), (d : Int)⟩) n (x, y) =
      if x = s ∧ y = d then EdgeWeight_max
      else if (x = d ∧ y = d) ∨ (x = d ∧ y = s) ∨ (x = s ∧ y = s) then 0
      else if y = s ∨ x = d then EdgeWeight_max
      else edgeCost A n (x, y) := by
  have key := entry_tfse_table A n ⟨(s : Int), (d : Int)⟩ hlen (by simp) (by simp)
    (by simpa using hs) (by simpa using hd) x y hx hy
  simp only [Int.toNat_ofNat] at key
  unfold edgeCost
  rw [key]
  split_ifs <;> rfl

theorem edgeCost_closing (A : List EdgeWeight) (n s d : Nat) (hlen : A.length = n * n)
    (hs : s < n) (hd : d < n) (hsd : s ≠ d) :
    edgeCost (tfse_table A n ⟨(s : Int), (d : Int)⟩) n (d, s) = 0 := by
  rw [edgeCost_tfse_table A n s d hlen hs hd _ _ hd hs]
  simp [Ne.symm hsd]

theorem edgeCost_direct (A : List EdgeWeight) (n s d : Nat) (hlen : A.length = n * n)
    (hs : s < n) (hd : d < n) :
    edgeCost (tfse_table A n ⟨(s : Int), (d : Int)⟩) n (s, d) = INVALID_EDGE_WEIGHT := by
  rw [edgeCost_tfse_table A n s d hlen hs hd _ _ hs hd]
  simp
  rfl

theorem edgeCost_into_source (A : List EdgeWeight) (n s d x : Nat) (hlen : A.length = n * n)
    (hs : s < n) (hd : d < n) (hx : x < n) (hxs : x ≠ s) (hxd : x ≠ d) :
    edgeCost (tfse_table A n ⟨(s : Int), (d : Int)⟩) n (x, s) = INVALID_EDGE_WEIGHT := by
  rw [edgeCost_tfse_table A n s d hlen hs hd _ _ hx hs]
  simp [hxs, hxd]
  rfl

/-- On an ordering of all locations that starts at `s` and ends at `d`, every consecutive edge
other than `(s, d)` costs the same in the rewritten table as in the original one. -/
theorem pathEdges_agree (A : List EdgeWeight) (n s d : Nat) (hlen : A.length = n * n)
    (hs : s < n) (hd : d < n) (q : List Nat) (hq : q.Perm (List.range n))
    (h0 : q.getD 0 0 = s) (hlast : q.getD (n - 1) 0 = d)
    (e : Nat × Nat) (he : e ∈ pathEdges q) (hne : e ≠ (s, d)) :
    edgeCost (tfse_table A n ⟨(s : Int), (d : Int)⟩) n e = edgeCost A n e := by
  have hqlen : q.length = n := by rw [hq.length_eq, List.length_range]
  have hnodup : q.Nodup := (hq.nodup_iff).mpr (List.nodup_range n)
  rw [pathEdges_eq_range, hqlen] at he
  obtain ⟨i, hi, rfl⟩ := List.mem_map.mp he
  have hi' : i < n - 1 := List.mem_range.mp hi
  have hx : q.getD i 0 < n := getD_lt_of_perm hq (by omega)
  have hy : q.getD (i + 1) 0 < n := getD_lt_of_perm hq (by omega)
  have hys : q.getD (i + 1) 0 ≠ s := by
    intro h
    have := getD_inj hnodup (by omega) (by omega) (h.trans h0.symm)
    omega
  have hxd : q.getD i 0 ≠ d := by
    intro h
    have := getD_inj hnodup (by omega) (by omega) (h.trans hlast.symm)
    omega
  have hsd : ¬ (q.getD i 0 = s ∧ q.getD (i + 1) 0 = d) := by
    rintro ⟨h1, h2⟩
    exact hne (by rw [h1, h2])
  rw [edgeCost_tfse_table A n s d hlen hs hd _ _ hx hy, if_neg hsd,
    if_neg (by rintro (h | h | h); exacts [hxd h.1, hxd h.1, hys h.2]),
    if_neg (by rintro (h | h); exacts [hys h, hxd h])]

theorem pathCost_agree (A : List EdgeWeight) (n s d : Nat) (hlen : A.length = n * n)
    (hs : s < n) (hd : d < n) (q : List Nat) (hq : q.Perm (List.range n))
    (h0 : q.getD 0 0 = s) (hlast : q.getD (n - 1) 0 = d)
    (hne : ∀ e ∈ pathEdges q, e ≠ (s, d)) :
    pathCost (tfse_table A n ⟨(s : Int), (d : Int)⟩) n q = pathCost A n q := by
  unfold pathCost
  congr 1
  apply List.map_congr_left
  intro e he
  exact pathEdges_agree A n s d hlen hs hd q hq h0 hlast e he (hne e he)

theorem cycleCost_split (table : List EdgeWeight) (n : Nat) (q : List Nat) (hq : q ≠ []) :
    cycleCost table n q =
      pathCost table n q + edgeCost table n (q.getD (q.length - 1) 0, q.getD 0 0) := by
  unfold cycleCost pathCost
  rw [cycleEdges_split q hq, List.map_append, List.sum_append]
  simp

/-- A closed tour over the rewritten table that starts at `s` ends at `d`, and it is an open
path over the original table with the same cost. -/
theorem rooted_cycle_to_path (A : List EdgeWeight) (n s d : Nat) (hlen : A.length = n * n)
    (hs : s < n) (hd : d < n) (hsd : s ≠ d) (q : List Nat) (hq : q.Perm (List.range n))
    (h0 : q.getD 0 0 = s)
    (huse : cycleUsable (tfse_table A n ⟨(s : Int), (d : Int)⟩) n q) :
    q.getD (n - 1) 0 = d ∧ pathUsable A n q ∧
      cycleCost (tfse_table A n ⟨(s : Int), (d : Int)⟩) n q = pathCost A n q := by
  have hqlen : q.length = n := by rw [hq.length_eq, List.length_range]
  have hnodup : q.Nodup := (hq.nodup_iff).mpr (List.nodup_range n)
  have hqne : q ≠ [] := by
    intro h
    rw [h] at hqlen
    simp at hqlen
    omega
  have hn2 : 2 ≤ n := by omega
  have hsplit := cycleEdges_split q hqne
  rw [hqlen, h0] at hsplit
  have hl : q.getD (n - 1) 0 < n := getD_lt_of_perm hq (by omega)
  have hls : q.getD (n - 1) 0 ≠ s := by
    intro h
    have := getD_inj hnodup (by omega) (by omega) (h.trans h0.symm)
    omega
  have hlast : q.getD (n - 1) 0 = d := by
    by_contra hld
    have hclose := huse (q.getD (n - 1) 0, s) (by rw [hsplit]; simp)
    exact hclose (edgeCost_into_source A n s d _ hlen hs hd hl hls hld)
  have hne : ∀ e ∈ pathEdges q, e ≠ (s, d) := by
    intro e he heq
    have hedge := huse e (by rw [hsplit]; exact List.mem_append_left _ he)
    rw [heq] at hedge
    exact hedge (edgeCost_direct A n s d hlen hs hd)
  refine ⟨hlast, ?_, ?_⟩
  · intro e he
    rw [← pathEdges_agree A n s d hlen hs hd q hq h0 hlast e he (hne e he)]
    exact huse e (by rw [hsplit]; exact List.mem_append_left _ he)
  · rw [cycleCost_split _ _ q hqne, hqlen, h0, hlast,
      pathCost_agree A n s d hlen hs hd q hq h0 hlast hne,
      edgeCost_closing A n s d hlen hs hd hsd]
    simp

/-- With at least three locations, an open path from `s` to `d` over the original table is a
closed tour over the rewritten table with the same cost. -/
theorem rooted_path_to_cycle (A : List EdgeWeight) (n s d : Nat) (hlen : A.length = n * n)
    (hn : 3 ≤ n) (hs : s < n) (hd : d < n) (hsd : s ≠ d) (q : List Nat)
    (hq : q.Perm (List.range n)) (h0 : q.getD 0 0 = s) (hlast : q.getD (n - 1) 0 = d)
    (huse : pathUsable A n q) :
    cycleUsable (tfse_table A n ⟨(s : Int), (d : Int)⟩) n q ∧
      cycleCost (tfse_table A n ⟨(s : Int), (d : Int)⟩) n q = pathCost A n q := by
  have hqlen : q.length = n := by rw [hq.length_eq, List.length_range]
  have hnodup : q.Nodup := (hq.nodup_iff).mpr (List.nodup_range n)
  have hqne : q ≠ [] := by
    intro h
    rw [h] at hqlen
    simp at hqlen
    omega
  have hsplit := cycleEdges_split q hqne
  rw [hqlen, h0, hlast] at hsplit
  have hne : ∀ e ∈ pathEdges q, e ≠ (s, d) := by
    intro e he heq
    rw [pathEdges_eq_range, hqlen] at he
    obtain ⟨i, hi, hie⟩ := List.mem_map.mp he
    have hi' : i < n - 1 := List.mem_range.mp hi
    rw [heq, Prod.mk.injEq] at hie
    have e1 := getD_inj hnodup (by omega) (by omega) (hie.1.trans h0.symm)
    have e2 := getD_inj hnodup (by omega) (by omega) (hie.2.trans hlast.symm)
    omega
  have hclose := edgeCost_closing A n s d hlen hs hd hsd
  refine ⟨?_, ?_⟩
  · intro e he
    rw [hsplit] at he
    rcases List.mem_append.mp he with h | h
    · rw [pathEdges_agree A n s d hlen hs hd q hq h0 hlast e h (hne e h)]
      exact huse e h
    · have : e = (d, s) := by simpa using h
      rw [this, hclose]
      decide
  · rw [cycleCost_split _ _ q hqne, hqlen, h0, hlast,
      pathCost_agree A n s d hlen hs hd q hq h0 hlast hne, hclose]
    simp

theorem getElem?_of_getD {q : List Nat} {i v : Nat} (hi : i < q.length)
    (h : q.getD i 0 = v) : q[i]? = some v := by
  rw [List.getD_eq_getElem?_getD, List.getElem?_eq_getElem hi, Option.getD_some] at h
  rw [List.getElem?_eq_getElem hi, h]

theorem getD_of_getElem? {q : List Nat} {i v : Nat} (h : q[i]? = some v) :
    q.getD i 0 = v := by
  rw [List.getD_eq_getElem?_getD, h, Option.getD_some]

/-- The two directions of the correspondence for a fixed pair of endpoints. -/
theorem tour_path_correspondence (A : List EdgeWeight) (n s d : Nat)
    (hlen : A.length = n * n) (hn : 3 ≤ n) (hs : s < n) (hd : d < n) (hsd : s ≠ d) :
    (∀ p, IsClosedTour (tfse_table A n ⟨(s : Int), (d : Int)⟩) n p →
      (∀ x, (x, s) ∈ cycleEdges p ↔ x = d) ∧
      IsOpenPath A n s d (p.rotate (p.indexOf s)) ∧
      cycleCost (tfse_table A n ⟨(s : Int), (d : Int)⟩) n p
        = pathCost A n (p.rotate (p.indexOf s))) ∧
    (∀ q, IsOpenPath A n s d q →
      IsClosedTour (tfse_table A n ⟨(s : Int), (d : Int)⟩) n q ∧
      cycleCost (tfse_table A n ⟨(s : Int), (d : Int)⟩) n q = pathCost A n q) := by
  constructor
  · rintro p ⟨hp, huse⟩
    have hplen : p.length = n := by rw [hp.length_eq, List.length_range]
    have hmem : s ∈ p := (hp.mem_iff).mpr (List.mem_range.mpr hs)
    have hk : p.indexOf s < p.length := List.indexOf_lt_length.mpr hmem
    generalize hq : p.rotate (p.indexOf s) = q
    have hqp : q.Perm (List.range n) := by
      rw [← hq]
      exact (List.rotate_perm p _).trans hp
    have hqlen : q.length = n := by rw [hqp.length_eq, List.length_range]
    have hnodup : q.Nodup := (hqp.nodup_iff).mpr (List.nodup_range n)
    have hq0 : q[0]? = some s := by
      rw [← hq, List.getElem?_rotate (by omega), Nat.zero_add, Nat.mod_eq_of_lt hk,
        List.getElem?_eq_getElem hk, List.getElem_indexOf hk]
    have h0 : q.getD 0 0 = s := getD_of_getElem? hq0
    have huse' : cycleUsable (tfse_table A n ⟨(s : Int), (d : Int)⟩) n q := by
      rw [← hq]
      exact (cycleUsable_rotate _ n p _).mpr huse
    obtain ⟨hlast, hpath, hcost⟩ :=
      rooted_cycle_to_path A n s d hlen hs hd hsd q hqp h0 huse'
    have hqne : q ≠ [] := by
      intro h
      rw [h] at hqlen
      simp at hqlen
      omega
    refine ⟨?_, ⟨hqp, ?_, ?_, hpath⟩, ?_⟩
    · intro x
      have hrot : (x, s) ∈ cycleEdges p ↔ (x, s) ∈ cycleEdges q := by
        rw [← hq, cycleEdges_rotate, List.mem_rotate]
      rw [hrot, cycleEdges_split q hqne, hqlen, h0, hlast, List.mem_append]
      constructor
      · rintro (h | h)
        · rw [pathEdges_eq_range, hqlen] at h
          obtain ⟨i, hi, hie⟩ := List.mem_map.mp h
          have hi' : i < n - 1 := List.mem_range.mp hi
          rw [Prod.mk.injEq] at hie
          have := getD_inj hnodup (by omega) (by omega) (hie.2.trans h0.symm)
          omega
        · simp at h
          exact h
      · intro h
        right
        simp [h]
    · rw [List.head?_eq_getElem?]
      exact hq0
    · rw [List.getLast?_eq_getElem?, hqlen]
      exact getElem?_of_getD (by omega) hlast
    · rw [← hcost, ← hq, cycleCost_rotate]
  · rintro q ⟨hqp, hhead, hlastq, huse⟩
    have hqlen : q.length = n := by rw [hqp.length_eq, List.length_range]
    have h0 : q.getD 0 0 = s := by
      rw [List.head?_eq_getElem?] at hhead
      exact getD_of_getElem? hhead
    have hlast : q.getD (n - 1) 0 = d := by
      rw [List.getLast?_eq_getElem?, hqlen] at hlastq
      exact getD_of_getElem? hlastq
    obtain ⟨h1, h2⟩ := rooted_path_to_cycle A n s d hlen hn hs hd hsd q hqp h0 hlast huse
    exact ⟨⟨hqp, h1⟩, h2⟩

/-- C2: for `n ≥ 3`, a table `A` of `n * n` entries and distinct in-range `s`, `d`, with `T` the
rewritten table: (1) in every ordering `p` of all locations whose cyclic edges are all
non-sentinel in `T`, the location immediately before `s` is `d`, and the cycle cost in `T`
equals the cost in `A` of the open path obtained by rotating `p` to start at `s` (a path from
`s` to `d` over non-sentinel edges of `A`); (2) every ordering of all locations from `s` to `d`
over non-sentinel edges of `A` is such a cycle in `T` with the same cost; hence a value is the
minimum closed-tour cost in `T` exactly when it is the minimum open-path cost from `s` to `d`
in `A`. -/
theorem C2_closed_tour_matches_open_path (A : List EdgeWeight) (n s d : Nat)
    (hlen : A.length = n * n) (hn : 3 ≤ n) (hs : s < n) (hd : d < n) (hsd : s ≠ d) :
    (∀ p, IsClosedTour (tfse_table A n ⟨(s : Int), (d : Int)⟩) n p →
      (∀ x, (x, s) ∈ cycleEdges p ↔ x = d) ∧
      IsOpenPath A n s d (p.rotate (p.indexOf s)) ∧
      cycleCost (tfse_table A n ⟨(s : Int), (d : Int)⟩) n p
        = pathCost A n (p.rotate (p.indexOf s))) ∧
    (∀ q, IsOpenPath A n s d q →
      IsClosedTour (tfse_table A n ⟨(s : Int), (d : Int)⟩) n q ∧
      cycleCost (tfse_table A n ⟨(s : Int), (d : Int)⟩) n q = pathCost A n q) ∧
    (∀ m, IsMinClosedTourCost (tfse_table A n ⟨(s : Int), (d : Int)⟩) n m ↔
      IsMinOpenPathCost A n s d m) := by
  obtain ⟨h1, h2⟩ := tour_path_correspondence A n s d hlen hn hs hd hsd
  refine ⟨h1, h2, ?_⟩
  intro m
  constructor
  · rintro ⟨⟨p, hp, hpm⟩, hmin⟩
    refine ⟨⟨p.rotate (p.indexOf s), (h1 p hp).2.1, ?_⟩, ?_⟩
    · rw [← (h1 p hp).2.2, hpm]
    · intro q hq
      rw [← (h2 q hq).2]
      exact hmin q (h2 q hq).1
  · rintro ⟨⟨q, hq, hqm⟩, hmin⟩
    refine ⟨⟨q, (h2 q hq).1, ?_⟩, ?_⟩
    · rw [(h2 q hq).2, hqm]
    · intro p hp
      rw [(h1 p hp).2.2]
      exact hmin _ (h1 p hp).2.1

/-- C2 on the 5x5 example with source 0 and destination 1: the closed tour `4,3,2,1,0` over the
rewritten table costs what the open path `0,4,3,2,1` costs in the original table. -/
theorem C2_closed_tour_matches_open_path_witness :
    exampleTable.length = 5 * 5 ∧
    IsClosedTour (tfse_table exampleTable 5 ⟨0, 1⟩) 5 [4, 3, 2, 1, 0] ∧
    cycleCost (tfse_table exampleTable 5 ⟨0, 1⟩) 5 [4, 3, 2, 1, 0]
      = pathCost exampleTable 5 ([4, 3, 2, 1, 0].rotate ([4, 3, 2, 1, 0].indexOf 0)) :=
  (fun h => ⟨by decide, h,
    ((C2_closed_tour_matches_open_path exampleTable 5 0 1 (by decide) (by decide) (by decide)
      (by decide) (by decide)).1 [4, 3, 2, 1, 0] h).2.2⟩)
    (⟨by decide, by decide⟩ :
      IsClosedTour (tfse_table exampleTable 5 ⟨0, 1⟩) 5 [4, 3, 2, 1, 0])

/-- C3 as stated fails in its size equation: on the sentinel-free table `[[0, 1], [1, 0]]` the
report of two singleton components meets the stated assumptions, the shortcut branch returns
`range = [0, 2]` without consulting it, and `range[1] - range[0] = 2` is not
`GetComponentSize(0) = 1`. -/
theorem C3_size_equation_counterexample :
    1 ≤ 2 ∧ connectedPairTable.length = 2 * 2 ∧
    (∀ i, i < 2 → twoSingletonsSCC.GetComponentID i < twoSingletonsSCC.GetNumberOfComponents) ∧
    (∀ j, j < twoSingletonsSCC.GetNumberOfComponents →
      twoSingletonsSCC.GetComponentSize j
        = ((List.range 2).filter (fun i => twoSingletonsSCC.GetComponentID i = j)).length) ∧
    SplitUnaccessibleLocations (fun _ _ => twoSingletonsSCC) 2 connectedPairTable
      = { component := [0, 1], range := [0, 2] } ∧
    ¬ (∀ k, k < twoSingletonsSCC.GetNumberOfComponents →
      (SplitUnaccessibleLocations (fun _ _ => twoSingletonsSCC) 2
          connectedPairTable).range.getD (k + 1) 0
        - (SplitUnaccessibleLocations (fun _ _ => twoSingletonsSCC) 2
          connectedPairTable).range.getD k 0
        = twoSingletonsSCC.GetComponentSize k) := by
  decide

/-- C3 amended, on a 3x3 table with a sentinel: the SCC report satisfies the assumptions, and the result
is the permutation `[0, 1, 2]` cut at `[0, 2, 3]`. -/
theorem C3_partition_invariant_witness :
    SplitUnaccessibleLocations runTarjanSCC 3 twoIslandsTable
      = { component := [0, 1, 2], range := [0, 2, 3] } ∧
    (SplitUnaccessibleLocations runTarjanSCC 3 twoIslandsTable).component.Perm (List.range 3) :=
  ⟨by decide,
    (C3_partition_invariant runTarjanSCC 3 twoIslandsTable (by decide) (by decide) (by decide)
      (by decide)).1⟩

set_option maxRecDepth 100000 in
/-- No ordering of the five locations is cheaper than 88 as a closed tour over the rewritten
example table. -/
theorem example_tour_cost_bound :
    ∀ p ∈ List.permutations' [0, 1, 2, 3, 4],
      88 ≤ cycleCost (tfse_table exampleTable 5 ⟨0, 1⟩) 5 p := by
  decide

/-- C6: evaluation of the fixed-endpoint pipeline on the 5x5 example with source 0 and
destination 1. The rewritten table has one component; `4,3,2,1,0` is a permutation of it and a
closed tour of minimum cost 88 over the rewritten table; a builder returning it makes
`HandleRequest` hand exactly that sequence to `ComputeRoute`, whose open route then runs
`4 → 3 → 2 → 1 → 0`: it starts at 4 and ends at the source instead of starting at the source
and ending at the destination. -/
theorem C6_trip_handed_over_unrotated :
    SplitUnaccessibleLocations runTarjanSCC 5 (tfse_table exampleTable 5 ⟨0, 1⟩)
      = { component := [0, 1, 2, 3, 4], range := [0, 5] } ∧
    IsClosedTour (tfse_table exampleTable 5 ⟨0, 1⟩) 5 [4, 3, 2, 1, 0] ∧
    cycleCost (tfse_table exampleTable 5 ⟨0, 1⟩) 5 [4, 3, 2, 1, 0] = 88 ∧
    (∀ p : List Nat, p.Perm [0, 1, 2, 3, 4] →
      88 ≤ cycleCost (tfse_table exampleTable 5 ⟨0, 1⟩) 5 p) ∧
    HandleRequest_trips runTarjanSCC (fun _ _ _ => [4, 3, 2, 1, 0]) (fun r _ _ => r) ⟨0, 1⟩ 5
      exampleTable = [[4, 3, 2, 1, 0]] ∧
    HandleRequest_routes runTarjanSCC (fun _ _ _ => [4, 3, 2, 1, 0]) (fun r _ _ => r) ⟨0, 1⟩
      [100, 101, 102, 103, 104] exampleTable
      = [[(104, 103), (103, 102), (102, 101), (101, 100)]] ∧
    [4, 3, 2, 1, 0].head? ≠ some 0 ∧ [4, 3, 2, 1, 0].getLast? ≠ some 1 := by
  refine ⟨by decide, ⟨by decide, by decide⟩, by decide, ?_, by decide, by decide, by decide,
    by decide⟩
  intro p hp
  exact example_tour_cost_bound p (List.mem_permutations'.mpr hp)

/-- C10 as stated fails: with the SCC routine computing strongly connected components, the
partition of the disconnected-pair matrix has no component equal to `{2}` or `{4}`. -/
theorem C10_no_singleton_component :
    ¬ ∃ k, k < (SplitUnaccessibleLocations runTarjanSCC 5
          disconnectedPairTable).GetNumberOfComponents ∧
        ((SplitUnaccessibleLocations runTarjanSCC 5 disconnectedPairTable).members k = [2] ∨
          (SplitUnaccessibleLocations runTarjanSCC 5 disconnectedPairTable).members k = [4]) := by
  decide

/-- C10, amended: the disconnected-pair matrix holds the sentinel exactly at `(2,4)` and
`(4,2)`; locations 2 and 4 still reach each other through location 0, and the partition is the
single component `{0,1,2,3,4}`. -/
theorem C10_disconnected_pair_single_component :
    entry disconnectedPairTable 5 2 4 = some INVALID_EDGE_WEIGHT ∧
    entry disconnectedPairTable 5 4 2 = some INVALID_EDGE_WEIGHT ∧
    hasEdge disconnectedPairTable 5 2 0 = true ∧ hasEdge disconnectedPairTable 5 0 4 = true ∧
    hasEdge disconnectedPairTable 5 4 0 = true ∧ hasEdge disconnectedPairTable 5 0 2 = true ∧
    sameComponent disconnectedPairTable 5 2 4 = true ∧
    SplitUnaccessibleLocations runTarjanSCC 5 disconnectedPairTable
      = { component := [0, 1, 2, 3, 4], range := [0, 5] } ∧
    (SplitUnaccessibleLocations runTarjanSCC 5 disconnectedPairTable).GetNumberOfComponents = 1 ∧
    (SplitUnaccessibleLocations runTarjanSCC 5 disconnectedPairTable).members 0
      = [0, 1, 2, 3, 4] := by
  decide

/-! ### Shortcut against general branch, documented example, member order -/

/-- An SCC report of one component holding every node satisfies the assumptions of the
closed form, and its only bucket is `0..n-1`. -/
theorem single_component_report (scc : TarjanSCC) (n : Nat)
    (hC : scc.GetNumberOfComponents = 1)
    (hid : ∀ i, i < n → scc.GetComponentID i = 0) (hsize : scc.GetComponentSize 0 = n) :
    bucket scc n 0 = List.range n ∧
    (∀ i, i < n → scc.GetComponentID i < scc.GetNumberOfComponents) ∧
    (∀ k, k < scc.GetNumberOfComponents → scc.GetComponentSize k = (bucket scc n k).length) := by
  have hb : bucket scc n 0 = List.range n := by
    unfold bucket
    rw [List.filter_eq_self]
    intro i hi
    simpa using hid i (List.mem_range.mp hi)
  refine ⟨hb, ?_, ?_⟩
  · intro i hi
    rw [hC, hid i hi]
    exact Nat.zero_lt_one
  · intro k hk
    have hk0 : k = 0 := by omega
    rw [hk0, hb, List.length_range, hsize]

/-- C11: for `n ≥ 1` and a sentinel-free `n * n` table, the general branch of
`SplitUnaccessibleLocations`, run with an SCC report that is right for the complete graph (one
component, `GetComponentID(i) = 0` for every node, `GetComponentSize(0) = n`), returns the same
`component = [0..n-1]` and `range = [0, n]` as the shortcut branch that the function takes. -/
theorem C11_shortcut_equals_general (runTarjan : List EdgeWeight → Nat → TarjanSCC)
    (scc : TarjanSCC) (n : Nat) (table : List EdgeWeight) (hn : 1 ≤ n)
    (hlen : table.length = n * n) (hfree : INVALID_EDGE_WEIGHT ∉ table)
    (hC : scc.GetNumberOfComponents = 1)
    (hid : ∀ i, i < n → scc.GetComponentID i = 0) (hsize : scc.GetComponentSize 0 = n) :
    SplitUnaccessibleLocations_general n scc = { component := List.range n, range := [0, n] } ∧
    SplitUnaccessibleLocations runTarjan n table
      = { component := List.range n, range := [0, n] } ∧
    SplitUnaccessibleLocations_general n scc = SplitUnaccessibleLocations runTarjan n table := by
  have _ := hlen
  obtain ⟨hb, hid', hsize'⟩ := single_component_report scc n hC hid hsize
  have hgen : SplitUnaccessibleLocations_general n scc
      = { component := List.range n, range := [0, n] } := by
    have h1 : List.range 1 = [0] := rfl
    rw [SplitUnaccessibleLocations_general_eq scc n hid' hsize', hC, h1]
    simp [hb, sizesBelow]
  have hshort := (shortcut_branch runTarjan n table hn hfree).1
  exact ⟨hgen, hshort, hgen.trans hshort.symm⟩

/-- C11 on the 5x5 example with the one-component report. -/
theorem C11_shortcut_equals_general_witness :
    INVALID_EDGE_WEIGHT ∉ exampleTable ∧
    SplitUnaccessibleLocations_general 5
        { GetNumberOfComponents := 1, GetComponentID := fun _ => 0,
          GetComponentSize := fun _ => 5 }
      = SplitUnaccessibleLocations runTarjanSCC 5 exampleTable :=
  ⟨by decide,
    (C11_shortcut_equals_general runTarjanSCC
      { GetNumberOfComponents := 1, GetComponentID := fun _ => 0,
        GetComponentSize := fun _ => 5 }
      5 exampleTable (by decide) (by decide) (by decide) rfl (fun _ _ => rfl) rfl).2.2⟩

/-- Slot `k` of a slotted vector, cut out at the running total of the sizes. -/
theorem drop_take_flatMap_range {α : Type} (scc : TarjanSCC) (g : Nat → List α) (c k : Nat)
    (hg : ∀ j, j < c → (g j).length = scc.GetComponentSize j) (hk : k < c) :
    (((List.range c).flatMap g).drop (sizesBelow scc k)).take (scc.GetComponentSize k)
      = g k := by
  induction c with
  | zero => omega
  | succ c ih =>
    have hlen := length_flatMap_range scc g c (fun j hj => hg j (by omega))
    rw [List.range_succ, List.flatMap_append, List.flatMap_singleton]
    rcases Nat.lt_or_ge k c with hlt | hge
    · have hle : sizesBelow scc k + scc.GetComponentSize k
          ≤ ((List.range c).flatMap g).length := by
        rw [hlen, ← sizesBelow_succ]
        exact sizesBelow_mono scc (by omega)
      rw [List.drop_append_of_le_length (by omega),
        List.take_append_of_le_length (by rw [List.length_drop]; omega)]
      exact ih (fun j hj => hg j (by omega)) hlt
    · have hkc : k = c := by omega
      subst hkc
      rw [← hlen, List.drop_left, ← hg k (by omega), List.take_length]

/-- Members of component `k` in the result of the general branch: the nodes with that component
ID, in increasing order. -/
theorem general_branch_members (scc : TarjanSCC) (n : Nat)
    (hid : ∀ i, i < n → scc.GetComponentID i < scc.GetNumberOfComponents)
    (hsize : ∀ k, k < scc.GetNumberOfComponents →
      scc.GetComponentSize k = (bucket scc n k).length)
    (k : Nat) (hk : k < scc.GetNumberOfComponents) :
    (SplitUnaccessibleLocations_general n scc).members k = bucket scc n k := by
  have htotal := sizesBelow_total scc n _ hid hsize
  rw [SplitUnaccessibleLocations_general_eq scc n hid hsize]
  unfold SCC_Component.members
  simp only []
  rw [boundaries_getD scc n _ (k + 1) (by omega) htotal,
    boundaries_getD scc n _ k (by omega) htotal, sizesBelow_succ, Nat.add_sub_cancel_left]
  exact drop_take_flatMap_range scc (bucket scc n) _ k (fun j hj => (hsize j hj).symm) hk

/-- C17, amended: members of a component are grouped by component ID in increasing index order. Under
the assumptions of the partition invariant on the SCC report, and where that report is what the
result is built from (the table holds a sentinel, or the report is the single component of the
shortcut branch), the slice `component[range[k] .. range[k+1])` of the result is the list of the
indices `i < n` with `GetComponentID(i) = k` in strictly increasing order. -/
theorem C17_members_grouped_in_order (runTarjan : List EdgeWeight → Nat → TarjanSCC)
    (n : Nat) (table : List EdgeWeight) (hn : 1 ≤ n) (hlen : table.length = n * n)
    (hid : ∀ i, i < n →
      (runTarjan table n).GetComponentID i < (runTarjan table n).GetNumberOfComponents)
    (hsize : ∀ j, j < (runTarjan table n).GetNumberOfComponents →
      (runTarjan table n).GetComponentSize j
        = ((List.range n).filter (fun i => (runTarjan table n).GetComponentID i = j)).length)
    (hrun : INVALID_EDGE_WEIGHT ∈ table ∨ (runTarjan table n).GetNumberOfComponents = 1)
    (k : Nat) (hk : k < (runTarjan table n).GetNumberOfComponents) :
    (SplitUnaccessibleLocations runTarjan n table).members k
      = (List.range n).filter (fun i => (runTarjan table n).GetComponentID i = k) ∧
    List.Pairwise (fun a b => a < b) ((SplitUnaccessibleLocations runTarjan n table).members k) ∧
    (∀ i, i ∈ (SplitUnaccessibleLocations runTarjan n table).members k ↔
      i < n ∧ (runTarjan table n).GetComponentID i = k) := by
  have _ := hlen
  have hmem : (SplitUnaccessibleLocations runTarjan n table).members k
      = (List.range n).filter (fun i => (runTarjan table n).GetComponentID i = k) := by
    by_cases hfree : INVALID_EDGE_WEIGHT ∉ table
    · have hC : (runTarjan table n).GetNumberOfComponents = 1 := by
        rcases hrun with h | h
        · exact absurd h hfree
        · exact h
      have hk0 : k = 0 := by omega
      subst hk0
      have hall : (List.range n).filter (fun i => (runTarjan table n).GetComponentID i = 0)
          = List.range n := by
        rw [List.filter_eq_self]
        intro i hi
        have := hid i (List.mem_range.mp hi)
        rw [hC] at this
        simpa using (by omega : (runTarjan table n).GetComponentID i = 0)
      rw [(shortcut_branch runTarjan n table hn hfree).1, hall]
      simp [SCC_Component.members]
    · have hgen : SplitUnaccessibleLocations runTarjan n table
          = SplitUnaccessibleLocations_general n (runTarjan table n) := by
        unfold SplitUnaccessibleLocations
        rw [if_neg hfree]
      rw [hgen, general_branch_members (runTarjan table n) n hid hsize k hk]
      rfl
  rw [hmem]
  refine ⟨rfl, (List.pairwise_lt_range n).filter _, ?_⟩
  intro i
  simp [List.mem_filter]

/-- C17 as stated fails: on the sentinel-free table `[[0, 1], [1, 0]]` the report of two
singleton components meets the stated assumptions, yet the slice of component 0 in the result
of the shortcut branch is `[0, 1]`: it holds node 1, whose component ID is 1. -/
theorem C17_slice_counterexample :
    1 ≤ 2 ∧ connectedPairTable.length = 2 * 2 ∧
    (∀ i, i < 2 → twoSingletonsSCC.GetComponentID i < twoSingletonsSCC.GetNumberOfComponents) ∧
    (∀ j, j < twoSingletonsSCC.GetNumberOfComponents →
      twoSingletonsSCC.GetComponentSize j
        = ((List.range 2).filter (fun i => twoSingletonsSCC.GetComponentID i = j)).length) ∧
    (SplitUnaccessibleLocations (fun _ _ => twoSingletonsSCC) 2 connectedPairTable).members 0
      = [0, 1] ∧
    twoSingletonsSCC.GetComponentID 1 ≠ 0 ∧
    ¬ (∀ k, k < twoSingletonsSCC.GetNumberOfComponents →
      (SplitUnaccessibleLocations (fun _ _ => twoSingletonsSCC) 2 connectedPairTable).members k
        = (List.range 2).filter (fun i => twoSingletonsSCC.GetComponentID i = k)) := by
  decide

/-- C17 amended, on the 3x3 table with components `{0, 1}` and `{2}`: component 0 is listed as
`[0, 1]`. -/
theorem C17_members_grouped_in_order_witness :
    INVALID_EDGE_WEIGHT ∈ twoIslandsTable ∧
    (SplitUnaccessibleLocations runTarjanSCC 3 twoIslandsTable).members 0
      = (List.range 3).filter
          (fun i => (runTarjanSCC twoIslandsTable 3).GetComponentID i = 0) ∧
    (SplitUnaccessibleLocations runTarjanSCC 3 twoIslandsTable).members 0 = [0, 1] :=
  ⟨by decide,
    (C17_members_grouped_in_order runTarjanSCC 3 twoIslandsTable (by decide) (by decide)
      (by decide) (by decide) (Or.inl (by decide)) 0 (by decide)).1,
    by decide⟩

/-- C15 as stated fails: for the SCC report of the comment on `SCC_Component` the returned
`range` is not `[0, 5]`. -/
theorem C15_comment_range_counterexample :
    INVALID_EDGE_WEIGHT ∈ commentExampleTable ∧
    (SplitUnaccessibleLocations (fun _ _ => commentExampleSCC) 9 commentExampleTable).range
      ≠ [0, 5] := by
  decide

set_option maxRecDepth 100000 in
/-- The strongly connected components of the table built for the comment's example are the two
components of the comment, and the partition computed from them is the same. -/
theorem comment_example_components :
    SplitUnaccessibleLocations runTarjanSCC 9 commentExampleTable
      = { component := [0, 1, 2, 4, 5, 3, 6, 7, 8], range := [0, 5, 9] } := by
  decide

/-- C15, amended: for the SCC report of the comment on `SCC_Component` (NodeIDs 0, 1, 2, 4, 5 in
component 0 and 3, 6, 7, 8 in component 1) the result is
`component = [0, 1, 2, 4, 5, 3, 6, 7, 8]` and `range = [0, 5, 9]`: the start of each component
followed by the number of locations, as the constructor assertions require. -/
theorem C15_comment_example :
    SplitUnaccessibleLocations (fun _ _ => commentExampleSCC) 9 commentExampleTable
      = { component := [0, 1, 2, 4, 5, 3, 6, 7, 8], range := [0, 5, 9] } ∧
    SplitUnaccessibleLocations_general 9 commentExampleSCC
      = { component := [0, 1, 2, 4, 5, 3, 6, 7, 8], range := [0, 5, 9] } ∧
    SplitUnaccessibleLocations runTarjanSCC 9 commentExampleTable
      = { component := [0, 1, 2, 4, 5, 3, 6, 7, 8], range := [0, 5, 9] } ∧
    (SplitUnaccessibleLocations (fun _ _ => commentExampleSCC) 9
      commentExampleTable).assertions ∧
    ¬ ({ component := [0, 1, 2, 4, 5, 3, 6, 7, 8], range := [0, 5] } :
      SCC_Component).assertions :=
  ⟨by decide, by decide, comment_example_components, by decide, by decide⟩

/-! ### The size assertion of `ComputeRoute` -/

/-- C16: the number of segments `ComputeRoute` builds. With `roundtrip = true` it is
`trip.size()`; with `roundtrip = false`, the value `HandleRequest` passes when source and
destination are given, it is `trip.size() - 1`, so for a trip of five locations the loop leaves
four segments and the condition of the `BOOST_ASSERT` of line 145 is false. -/
theorem C16_segment_count {PhantomNode : Type} [Inhabited PhantomNode]
    (snapped_phantoms : List PhantomNode) (trip : List NodeID) :
    (ComputeRoute_segments snapped_phantoms trip true).length = trip.length ∧
    (ComputeRoute_segments snapped_phantoms trip false).length = trip.length - 1 ∧
    HandleRequest_roundtrip ⟨0, 1⟩ = false ∧
    (ComputeRoute_segments [100, 101, 102, 103, 104] [0, 4, 3, 2, 1]
      (HandleRequest_roundtrip ⟨0, 1⟩)).length = 4 ∧
    (ComputeRoute_segments [100, 101, 102, 103, 104] [0, 4, 3, 2, 1]
      (HandleRequest_roundtrip ⟨0, 1⟩)).length ≠ [0, 4, 3, 2, 1].length := by
  refine ⟨?_, ?_, by decide, by decide, by decide⟩
  · unfold ComputeRoute_segments
    rw [ComputeRoute_loop_roundtrip, zip_cyclic_eq_range]
    simp
  · unfold ComputeRoute_segments
    rw [ComputeRoute_loop_open, zip_tail_eq_range]
    simp

/-! ### Two locations with fixed endpoints -/

theorem tfse_table_two_01 (A : List EdgeWeight) (hlen : A.length = 2 * 2) :
    tfse_table A 2 ⟨((0 : Nat) : Int), ((1 : Nat) : Int)⟩ = [0, EdgeWeight_max, 0, 0] := by
  match A, hlen with
  | [_, _, _, _], _ =>
    simp [tfse_table, HandleRequest_tables, fixedEndpoints, tfseLoop, tfseLoopBody,
      tfseFinalWrites, List.range, List.range.loop]

theorem tfse_table_two_10 (A : List EdgeWeight) (hlen : A.length = 2 * 2) :
    tfse_table A 2 ⟨((1 : Nat) : Int), ((0 : Nat) : Int)⟩ = [0, 0, EdgeWeight_max, 0] := by
  match A, hlen with
  | [_, _, _, _], _ =>
    simp [tfse_table, HandleRequest_tables, fixedEndpoints, tfseLoop, tfseLoopBody,
      tfseFinalWrites, List.range, List.range.loop]

/-- Following edges to locations below `n` from `s` never leaves `s` when every edge out of `s`
leads back to `s`. -/
theorem stuck_at_source (T : List EdgeWeight) (n s : Nat)
    (hout : ∀ c, c < n → hasEdge T n s c = true → c = s) (x : Nat)
    (h : Relation.ReflTransGen (fun i j => j < n ∧ hasEdge T n i j = true) s x) : x = s := by
  induction h with
  | refl => rfl
  | tail _ hbc ih =>
    rw [ih] at hbc
    exact hout _ hbc.1 hbc.2

theorem twoLocationFacts_01 : twoLocationFacts [0, EdgeWeight_max, 0, 0] 0 1 := by
  decide

theorem twoLocationFacts_10 : twoLocationFacts [0, 0, EdgeWeight_max, 0] 1 0 := by
  decide

/-- The consequences of `twoLocationFacts` in the form used for the two-location request. -/
theorem two_location_consequences (T : List EdgeWeight) (s d : Nat) (hsd : s ≠ d)
    (h : twoLocationFacts T s d) :
    entry T 2 s s = some 0 ∧ entry T 2 s d = some INVALID_EDGE_WEIGHT ∧
    entry T 2 d s = some 0 ∧ entry T 2 d d = some 0 ∧
    (∀ p : List Nat, p.Perm (List.range 2) → ¬ cycleUsable T 2 p) ∧
    ¬ Relation.ReflTransGen (fun i j => j < 2 ∧ hasEdge T 2 i j = true) s d ∧
    (reachableFrom T 2 s).contains d = false ∧
    sameComponent T 2 s d = false ∧
    SplitUnaccessibleLocations runTarjanSCC 2 T
      = { component := [0, 1], range := [0, 1, 2] } ∧
    (SplitUnaccessibleLocations runTarjanSCC 2 T).members 0 = [0] ∧
    (SplitUnaccessibleLocations runTarjanSCC 2 T).members 1 = [1] := by
  obtain ⟨h1, h2, h3, h4, h5, h6, h7, h8, h9, h10, h11⟩ := h
  refine ⟨h1, h2, h3, h4, ?_, ?_, h7, h8, h9, h10, h11⟩
  · intro p hp
    exact h5 p (List.mem_permutations'.mpr hp)
  · intro hreach
    exact hsd (stuck_at_source T 2 s h6 d hreach).symm

/-- C14: two-location fixed-endpoint request. For every 2x2 table `A` and distinct in-range
source `s` and destination `d`, the rewritten table `T` does not depend on `A`:
`T[s][s] = 0`, `T[s][d]` is the sentinel, `T[d][s] = 0`, `T[d][d] = 0`. No ordering of the two
locations is a closed tour with all edges non-sentinel in `T`, `d` cannot be reached from `s`
along non-sentinel entries, and the strongly connected components of `T` are the two
singletons. -/
theorem C14_two_location_request (A : List EdgeWeight) (s d : Nat) (hlen : A.length = 2 * 2)
    (hs : s < 2) (hd : d < 2) (hsd : s ≠ d) :
    (∀ B : List EdgeWeight, B.length = 2 * 2 →
      tfse_table B 2 ⟨(s : Int), (d : Int)⟩ = tfse_table A 2 ⟨(s : Int), (d : Int)⟩) ∧
    entry (tfse_table A 2 ⟨(s : Int), (d : Int)⟩) 2 s s = some 0 ∧
    entry (tfse_table A 2 ⟨(s : Int), (d : Int)⟩) 2 s d = some INVALID_EDGE_WEIGHT ∧
    entry (tfse_table A 2 ⟨(s : Int), (d : Int)⟩) 2 d s = some 0 ∧
    entry (tfse_table A 2 ⟨(s : Int), (d : Int)⟩) 2 d d = some 0 ∧
    (∀ p : List Nat, p.Perm (List.range 2) →
      ¬ cycleUsable (tfse_table A 2 ⟨(s : Int), (d : Int)⟩) 2 p) ∧
    ¬ Relation.ReflTransGen
      (fun i j => j < 2 ∧ hasEdge (tfse_table A 2 ⟨(s : Int), (d : Int)⟩) 2 i j = true) s d ∧
    (reachableFrom (tfse_table A 2 ⟨(s : Int), (d : Int)⟩) 2 s).contains d = false ∧
    sameComponent (tfse_table A 2 ⟨(s : Int), (d : Int)⟩) 2 s d = false ∧
    SplitUnaccessibleLocations runTarjanSCC 2 (tfse_table A 2 ⟨(s : Int), (d : Int)⟩)
      = { component := [0, 1], range := [0, 1, 2] } ∧
    (SplitUnaccessibleLocations runTarjanSCC 2
      (tfse_table A 2 ⟨(s : Int), (d : Int)⟩)).members 0 = [0] ∧
    (SplitUnaccessibleLocations runTarjanSCC 2
      (tfse_table A 2 ⟨(s : Int), (d : Int)⟩)).members 1 = [1] := by
  have hcases : (s = 0 ∧ d = 1) ∨ (s = 1 ∧ d = 0) := by omega
  rcases hcases with ⟨rfl, rfl⟩ | ⟨rfl, rfl⟩
  · refine ⟨fun B hB => ?_, ?_⟩
    · rw [tfse_table_two_01 A hlen, tfse_table_two_01 B hB]
    · rw [tfse_table_two_01 A hlen]
      exact two_location_consequences _ 0 1 hsd twoLocationFacts_01
  · refine ⟨fun B hB => ?_, ?_⟩
    · rw [tfse_table_two_10 A hlen, tfse_table_two_10 B hB]
    · rw [tfse_table_two_10 A hlen]
      exact two_location_consequences _ 1 0 hsd twoLocationFacts_10

/-- C14 on the table `[[0, 7], [9, 0]]` with source 0 and destination 1. -/
theorem C14_two_location_request_witness :
    tfse_table [0, 7, 9, 0] 2 ⟨0, 1⟩ = [0, INVALID_EDGE_WEIGHT, 0, 0] ∧
    SplitUnaccessibleLocations runTarjanSCC 2 (tfse_table [0, 7, 9, 0] 2 ⟨0, 1⟩)
      = { component := [0, 1], range := [0, 1, 2] } :=
  ⟨by decide,
    (C14_two_location_request [0, 7, 9, 0] 0 1 (by decide) (by decide) (by decide)
      (by decide)).2.2.2.2.2.2.2.2.2.1⟩

/-! ### The trip list is never empty -/

theorem general_branch_range (scc : TarjanSCC) (n : Nat) :
    (SplitUnaccessibleLocations_general n scc).range
      = (List.range scc.GetNumberOfComponents).map (sizesBelow scc) ++ [n] := by
  unfold SplitUnaccessibleLocations_general
  simp only [prefixLoop_eq, List.length_replicate]

/-- The number of components of the result: one in the shortcut branch, the number the SCC
routine reports in the general branch. -/
theorem number_of_components_eq (runTarjan : List EdgeWeight → Nat → TarjanSCC)
    (n : Nat) (table : List EdgeWeight) :
    (SplitUnaccessibleLocations runTarjan n table).GetNumberOfComponents
      = if INVALID_EDGE_WEIGHT ∉ table then 1
        else (runTarjan table n).GetNumberOfComponents := by
  unfold SplitUnaccessibleLocations
  by_cases h : INVALID_EDGE_WEIGHT ∉ table
  · rw [if_pos h, if_pos h]
    rfl
  · rw [if_neg h, if_neg h]
    unfold SCC_Component.GetNumberOfComponents
    rw [general_branch_range]
    simp

theorem HandleRequest_trips_length (runTarjan : List EdgeWeight → Nat → TarjanSCC)
    (bruteForce farthestInsertion : TripBuilder) (parameters : TripParameters)
    (n : Nat) (result_table : List EdgeWeight) :
    (HandleRequest_trips runTarjan bruteForce farthestInsertion parameters n result_table).length
      = (SplitUnaccessibleLocations runTarjan n
          (tfse_table result_table n parameters)).GetNumberOfComponents := by
  simp [HandleRequest_trips]

/-- A component with at least one member yields a non-empty trip when the builders return
permutations of their input. -/
theorem sccRoute_ne_nil (bruteForce farthestInsertion : TripBuilder)
    (hbf : ∀ r m t, (bruteForce r m t).Perm r) (hfi : ∀ r m t, (farthestInsertion r m t).Perm r)
    (parameters : TripParameters) (n : Nat) (tfse result_table : List EdgeWeight)
    (scc : SCC_Component) (k : Nat) (hmem : scc.members k ≠ []) :
    (HandleRequest_sccRoute bruteForce farthestInsertion parameters n tfse result_table
      scc k).2 ≠ [] := by
  have hperm : ∀ l : List NodeID, l.Perm (scc.members k) → l ≠ [] := by
    intro l hl hnil
    rw [hnil] at hl
    exact hmem hl.symm.eq_nil
  unfold HandleRequest_sccRoute
  simp only []
  split_ifs
  · exact hperm _ (hbf _ _ _)
  · exact hperm _ (hbf _ _ _)
  · exact hperm _ (hfi _ _ _)
  · exact hperm _ (hfi _ _ _)
  · exact hmem

theorem bucketLoopBody_length (scc : TarjanSCC) (st : List NodeID × List Nat) (i : Nat) :
    (bucketLoopBody scc st i).1.length = st.1.length := by
  simp [bucketLoopBody]

theorem bucketLoop_length (scc : TarjanSCC) (m : Nat) (st : List NodeID × List Nat) :
    (bucketLoop scc m st).1.length = st.1.length := by
  unfold bucketLoop
  generalize List.range m = nodes
  induction nodes generalizing st with
  | nil => rfl
  | cons i nodes ih => rw [List.foldl_cons, ih, bucketLoopBody_length]

theorem general_branch_component_length (scc : TarjanSCC) (n : Nat) :
    (SplitUnaccessibleLocations_general n scc).component.length = n := by
  unfold SplitUnaccessibleLocations_general
  simp only [bucketLoop_length, List.length_replicate]

/-- The reported sizes of the components below `c` add up to at most the number of nodes when
each is the size of its member set. -/
theorem sizesBelow_le (scc : TarjanSCC) (n c : Nat)
    (hsize : ∀ k, k < c → scc.GetComponentSize k = (bucket scc n k).length) :
    sizesBelow scc c ≤ n := by
  rw [← length_flatMap_range scc (bucket scc n) c (fun k hk => (hsize k hk).symm)]
  have h := (flatMap_filter_perm scc.GetComponentID c (List.range n)).length_eq
  have h2 := List.length_filter_le (fun i => decide (scc.GetComponentID i < c)) (List.range n)
  rw [List.length_range] at h2
  exact h.trans_le h2

/-- In the general branch every component with a reported size of at least one, the size of its
member set, gets a non-empty slice. -/
theorem general_branch_members_ne_nil (scc : TarjanSCC) (n : Nat)
    (hsize : ∀ k, k < scc.GetNumberOfComponents →
      scc.GetComponentSize k = (bucket scc n k).length)
    (hpos : ∀ k, k < scc.GetNumberOfComponents → 1 ≤ scc.GetComponentSize k)
    (k : Nat) (hk : k < scc.GetNumberOfComponents) :
    (SplitUnaccessibleLocations_general n scc).members k ≠ [] := by
  have hle := sizesBelow_le scc n _ hsize
  have hmono := sizesBelow_mono scc (show k + 1 ≤ scc.GetNumberOfComponents by omega)
  have hsucc := sizesBelow_succ scc k
  have hp := hpos k hk
  have hrk : (SplitUnaccessibleLocations_general n scc).range.getD k 0 = sizesBelow scc k := by
    rw [general_branch_range, List.getD_eq_getElem?_getD,
      List.getElem?_append_left (by simpa using hk),
      List.getElem?_eq_getElem (by simpa using hk)]
    simp
  have hrk1 : sizesBelow scc (k + 1)
      ≤ (SplitUnaccessibleLocations_general n scc).range.getD (k + 1) 0 := by
    rw [general_branch_range, List.getD_eq_getElem?_getD]
    rcases Nat.lt_or_ge (k + 1) scc.GetNumberOfComponents with hlt | hge
    · rw [List.getElem?_append_left (by simpa using hlt),
        List.getElem?_eq_getElem (by simpa using hlt)]
      simp
    · have hkc : k + 1 = scc.GetNumberOfComponents := by omega
      rw [List.getElem?_append_right (by simp; omega)]
      simp [hkc]
      omega
  intro h
  have hlen := congrArg List.length h
  unfold SCC_Component.members at hlen
  rw [List.length_take, List.length_drop, general_branch_component_length, hrk,
    List.length_nil] at hlen
  omega

/-! ### Facts about the SCC model that the trip list needs -/

theorem mem_expand_of_mem (table : List EdgeWeight) (n : Nat) (seen : List Nat) (j : Nat)
    (hj : j < n) (hmem : j ∈ seen) : j ∈ expand table n seen := by
  unfold expand
  rw [List.mem_filter]
  refine ⟨List.mem_range.mpr hj, ?_⟩
  simp [hmem]

theorem mem_iterate_expand (table : List EdgeWeight) (n i : Nat) (hi : i < n) (m : Nat) :
    i ∈ Nat.iterate (expand table n) m [i] := by
  induction m with
  | zero => simp [Nat.iterate]
  | succ m ih =>
    rw [Function.iterate_succ_apply']
    exact mem_expand_of_mem table n _ i hi ih

theorem sameComponent_self (table : List EdgeWeight) (n i : Nat) (hi : i < n) :
    sameComponent table n i i = true := by
  unfold sameComponent reachableFrom
  simp [mem_iterate_expand table n i hi n]

theorem representative_zero (table : List EdgeWeight) (n : Nat) (hn : 1 ≤ n) :
    representative table n 0 = 0 := by
  obtain ⟨m, rfl⟩ : ∃ m, n = m + 1 := ⟨n - 1, by omega⟩
  unfold representative
  rw [List.range_succ_eq_map, List.find?_cons_of_pos _ (sameComponent_self table _ 0 hn)]
  rfl

/-- The roots of the SCC model: the nodes that are the smallest member of their component. -/
theorem runTarjanSCC_count (table : List EdgeWeight) (n : Nat) :
    (runTarjanSCC table n).GetNumberOfComponents
      = ((List.range n).filter (fun k => representative table n k = k)).length := rfl

theorem runTarjanSCC_count_pos (table : List EdgeWeight) (n : Nat) (hn : 1 ≤ n) :
    1 ≤ (runTarjanSCC table n).GetNumberOfComponents := by
  rw [runTarjanSCC_count]
  apply List.length_pos_of_mem (a := 0)
  rw [List.mem_filter]
  exact ⟨List.mem_range.mpr (by omega), by simp [representative_zero table n hn]⟩

theorem runTarjanSCC_componentID (table : List EdgeWeight) (n i : Nat) :
    (runTarjanSCC table n).GetComponentID i
      = (((List.range n).filter (fun k => representative table n k = k)).filter
          (fun k => k < representative table n i)).length := rfl

theorem runTarjanSCC_size (table : List EdgeWeight) (n c : Nat) :
    (runTarjanSCC table n).GetComponentSize c
      = ((List.range n).filter
          (fun i => (runTarjanSCC table n).GetComponentID i = c)).length := rfl

/-- In a strictly increasing list exactly `k` elements lie below the element at position `k`. -/
theorem length_filter_lt_getElem (l : List Nat) (hl : List.Pairwise (fun a b => a < b) l)
    (k : Nat) (hk : k < l.length) :
    (l.filter (fun x => decide (x < l[k]))).length = k := by
  induction l generalizing k with
  | nil => simp at hk
  | cons a t ih =>
    rw [List.pairwise_cons] at hl
    cases k with
    | zero =>
      have hnone : (a :: t).filter (fun x => decide (x < a)) = [] := by
        rw [List.filter_eq_nil_iff]
        intro b hb
        rcases List.mem_cons.mp hb with rfl | hb'
        · simp
        · have := hl.1 b hb'
          simp
          omega
      simpa using congrArg List.length hnone
    | succ k =>
      have hk' : k < t.length := by simpa using hk
      have hlt : a < t[k] := hl.1 _ (List.getElem_mem hk')
      simp only [List.getElem_cons_succ]
      rw [List.filter_cons_of_pos (by simpa using hlt), List.length_cons, ih hl.2 k hk']

/-- Every component the SCC model reports has a member: its root. -/
theorem runTarjanSCC_size_pos (table : List EdgeWeight) (n k : Nat)
    (hk : k < (runTarjanSCC table n).GetNumberOfComponents) :
    1 ≤ (runTarjanSCC table n).GetComponentSize k := by
  rw [runTarjanSCC_count] at hk
  have hsorted : List.Pairwise (fun a b => a < b)
      ((List.range n).filter (fun k => representative table n k = k)) :=
    (List.pairwise_lt_range n).filter _
  have hroot := List.getElem_mem hk
  rw [List.mem_filter] at hroot
  have hrep : representative table n
      (((List.range n).filter (fun k => representative table n k = k))[k])
      = ((List.range n).filter (fun k => representative table n k = k))[k] := by
    simpa using hroot.2
  rw [runTarjanSCC_size]
  apply List.length_pos_of_mem
    (a := ((List.range n).filter (fun k => representative table n k = k))[k])
  rw [List.mem_filter]
  refine ⟨hroot.1, ?_⟩
  rw [runTarjanSCC_componentID, hrep, length_filter_lt_getElem _ hsorted k hk]
  simp

/-- Every component of the partition computed with the SCC model has a member. -/
theorem members_ne_nil (n : Nat) (table : List EdgeWeight) (hn : 1 ≤ n) (k : Nat)
    (hk : k < (SplitUnaccessibleLocations runTarjanSCC n table).GetNumberOfComponents) :
    (SplitUnaccessibleLocations runTarjanSCC n table).members k ≠ [] := by
  rw [number_of_components_eq] at hk
  by_cases hfree : INVALID_EDGE_WEIGHT ∉ table
  · rw [if_pos hfree] at hk
    have hk0 : k = 0 := by omega
    rw [hk0, (shortcut_branch runTarjanSCC n table hn hfree).1]
    intro h
    have hlen := congrArg List.length h
    simp [SCC_Component.members] at hlen
    omega
  · rw [if_neg hfree] at hk
    have hgen : SplitUnaccessibleLocations runTarjanSCC n table
        = SplitUnaccessibleLocations_general n (runTarjanSCC table n) := by
      unfold SplitUnaccessibleLocations
      rw [if_neg hfree]
    rw [hgen]
    exact general_branch_members_ne_nil (runTarjanSCC table n) n
      (fun j _ => runTarjanSCC_size table n j)
      (fun j hj => runTarjanSCC_size_pos table n j hj) k hk

/-- C18: the `"NoTrips"` branch is not taken. For every request past the empty-table check (a
table of `n * n` entries, `n ≥ 1`), with the SCC routine computing the strongly connected
components of the table graph, the partition has at least one component, `trips` has exactly
one entry per component and is non-empty, and the pipeline ends with `Status::Ok`; each trip is
a non-empty sequence when the builders return permutations of their input. A request with an
empty table is rejected by the check of line 189 with the plain `Status::Error`. -/
theorem C18_no_trips_unreachable (bruteForce farthestInsertion : TripBuilder)
    (parameters : TripParameters) (n : Nat) (result_table : List EdgeWeight) (hn : 1 ≤ n)
    (hlen : result_table.length = n * n) :
    1 ≤ (SplitUnaccessibleLocations runTarjanSCC n
      (tfse_table result_table n parameters)).GetNumberOfComponents ∧
    (HandleRequest_trips runTarjanSCC bruteForce farthestInsertion parameters n
        result_table).length
      = (SplitUnaccessibleLocations runTarjanSCC n
          (tfse_table result_table n parameters)).GetNumberOfComponents ∧
    HandleRequest_trips runTarjanSCC bruteForce farthestInsertion parameters n result_table
      ≠ [] ∧
    HandleRequest_outcome runTarjanSCC bruteForce farthestInsertion parameters n result_table
      = HandleRequestOutcome.Ok ∧
    HandleRequest_outcome runTarjanSCC bruteForce farthestInsertion parameters n result_table
      ≠ HandleRequestOutcome.NoTrips ∧
    ((∀ r m t, (bruteForce r m t).Perm r) → (∀ r m t, (farthestInsertion r m t).Perm r) →
      ∀ t ∈ HandleRequest_trips runTarjanSCC bruteForce farthestInsertion parameters n
        result_table, t ≠ []) ∧
    (∀ m, HandleRequest_outcome runTarjanSCC bruteForce farthestInsertion parameters m []
      = HandleRequestOutcome.Error) := by
  have hcount : 1 ≤ (SplitUnaccessibleLocations runTarjanSCC n
      (tfse_table result_table n parameters)).GetNumberOfComponents := by
    rw [number_of_components_eq]
    by_cases hfree : INVALID_EDGE_WEIGHT ∉ tfse_table result_table n parameters
    · rw [if_pos hfree]
    · rw [if_neg hfree]
      exact runTarjanSCC_count_pos _ n hn
  have hlength := HandleRequest_trips_length runTarjanSCC bruteForce farthestInsertion
    parameters n result_table
  have hne : HandleRequest_trips runTarjanSCC bruteForce farthestInsertion parameters n
      result_table ≠ [] := by
    intro h
    rw [h] at hlength
    simp at hlength
    omega
  have hok : HandleRequest_outcome runTarjanSCC bruteForce farthestInsertion parameters n
      result_table = HandleRequestOutcome.Ok := by
    have hpos : result_table.length ≠ 0 := by
      rw [hlen]
      exact Nat.mul_ne_zero (by omega) (by omega)
    unfold HandleRequest_outcome
    rw [if_neg hpos]
    simp only []
    have hempty : (HandleRequest_trips runTarjanSCC bruteForce farthestInsertion parameters n
        result_table).isEmpty = false := by
      cases hx : HandleRequest_trips runTarjanSCC bruteForce farthestInsertion parameters n
        result_table with
      | nil => exact absurd hx hne
      | cons a l => rfl
    rw [hempty]
    rfl
  refine ⟨hcount, hlength, hne, hok, ?_, ?_, ?_⟩
  · rw [hok]
    decide
  · intro hbf hfi t ht
    unfold HandleRequest_trips at ht
    simp only [List.mem_map, List.mem_range] at ht
    obtain ⟨k, hk, rfl⟩ := ht
    apply sccRoute_ne_nil bruteForce farthestInsertion hbf hfi
    exact members_ne_nil n _ hn k hk
  · intro m
    rfl

/-- C18 on the 3x3 table with components `{0, 1}` and `{2}`, without fixed endpoints and with
builders that return their input: two trips, both non-empty, outcome `Ok`. -/
theorem C18_no_trips_unreachable_witness :
    HandleRequest_trips runTarjanSCC (fun r _ _ => r) (fun r _ _ => r) ⟨-1, -1⟩ 3
      twoIslandsTable = [[0, 1], [2]] ∧
    HandleRequest_outcome runTarjanSCC (fun r _ _ => r) (fun r _ _ => r) ⟨-1, -1⟩ 3
      twoIslandsTable = HandleRequestOutcome.Ok :=
  ⟨by decide,
    (C18_no_trips_unreachable (fun r _ _ => r) (fun r _ _ => r) ⟨-1, -1⟩ 3
      twoIslandsTable (by decide) (by decide)).2.2.2.1⟩

end osrm.engine.plugins

/-! ## The stall-on-demand check -/

namespace osrm.engine.routing_algorithms

open osrm.engine.plugins

theorem wrapInt32_of_fits (x : Int) (hlo : -2147483648 ≤ x) (hhi : x ≤ 2147483647) :
    wrapInt32 x = x := by
  unfold wrapInt32
  omega

theorem reverse_flag_eq (forward_direction : Bool) (data : EdgeData) :
    (if (!forward_direction) = true then data.forward else data.backward)
      = reverseFlag forward_direction data := by
  cases forward_direction <;> rfl

/-- The loop returns the heap it was given, and it returns `true` exactly when one of the
remaining edges passes the three tests. -/
theorem StallAtNode_loop_spec (forward_direction : Bool) (facade : DataFacade)
    (weight : EdgeWeight) (query_heap : QueryHeap) (edges : List EdgeID) :
    (StallAtNode_loop forward_direction facade weight query_heap edges).2 = query_heap ∧
    ((StallAtNode_loop forward_direction facade weight query_heap edges).1 = true ↔
      ∃ e ∈ edges, reverseFlag forward_direction (facade.GetEdgeData e) = true ∧
        query_heap.WasInserted (facade.GetTarget e) = true ∧
        addWeight (query_heap.GetKey (facade.GetTarget e)) (facade.GetEdgeData e).weight
          < weight) := by
  induction edges with
  | nil => simp [StallAtNode_loop]
  | cons edge rest ih =>
    rw [StallAtNode_loop]
    simp only [reverse_flag_eq]
    by_cases hflag : reverseFlag forward_direction (facade.GetEdgeData edge) = true
    · by_cases hins : query_heap.WasInserted (facade.GetTarget edge) = true
      · by_cases hlt : addWeight (query_heap.GetKey (facade.GetTarget edge))
            (facade.GetEdgeData edge).weight < weight
        · simp only [hflag, hins, hlt, if_true]
          exact ⟨trivial, fun _ => ⟨edge, List.mem_cons_self _ _, hflag, hins, hlt⟩,
            fun _ => trivial⟩
        · simp only [hflag, hins, hlt, if_true, if_false]
          refine ⟨ih.1, ih.2.trans ?_⟩
          constructor
          · rintro ⟨e, he, h⟩
            exact ⟨e, List.mem_cons_of_mem _ he, h⟩
          · rintro ⟨e, he, h⟩
            rcases List.mem_cons.mp he with rfl | he'
            · exact absurd h.2.2 hlt
            · exact ⟨e, he', h⟩
      · simp only [hflag, hins, if_true, if_false]
        refine ⟨ih.1, ih.2.trans ?_⟩
        constructor
        · rintro ⟨e, he, h⟩
          exact ⟨e, List.mem_cons_of_mem _ he, h⟩
        · rintro ⟨e, he, h⟩
          rcases List.mem_cons.mp he with rfl | he'
          · exact absurd h.2.1 hins
          · exact ⟨e, he', h⟩
    · simp only [hflag, if_false]
      refine ⟨ih.1, ih.2.trans ?_⟩
      constructor
      · rintro ⟨e, he, h⟩
        exact ⟨e, List.mem_cons_of_mem _ he, h⟩
      · rintro ⟨e, he, h⟩
        rcases List.mem_cons.mp he with rfl | he'
        · exact absurd h.1 hflag
        · exact ⟨e, he', h⟩

/-- C12, amended: `StallAtNode<forward_direction>(node, weight)` returns `true` if and only if some edge
`e` adjacent to `node` is traversable in the opposite direction (`data.backward` in the forward
search, `data.forward` in the backward search), its target was inserted into the query heap,
and `GetKey(to) + weight(e) < weight` with the `int` addition of the code; it returns `false`
when there is no such edge; and it leaves the heap as it was. When every sum `GetKey(to) +
weight(e)` over the adjacent edges fits in 32 bits, the same holds with the exact sum. -/
theorem C12_stall_at_node (forward_direction : Bool) (facade : DataFacade) (node : NodeID)
    (weight : EdgeWeight) (query_heap : QueryHeap) :
    ((StallAtNode forward_direction facade node weight query_heap).1 = true ↔
      ∃ e ∈ facade.GetAdjacentEdgeRange node,
        reverseFlag forward_direction (facade.GetEdgeData e) = true ∧
        query_heap.WasInserted (facade.GetTarget e) = true ∧
        addWeight (query_heap.GetKey (facade.GetTarget e)) (facade.GetEdgeData e).weight
          < weight) ∧
    ((¬ ∃ e ∈ facade.GetAdjacentEdgeRange node,
        reverseFlag forward_direction (facade.GetEdgeData e) = true ∧
        query_heap.WasInserted (facade.GetTarget e) = true ∧
        addWeight (query_heap.GetKey (facade.GetTarget e)) (facade.GetEdgeData e).weight
          < weight) →
      (StallAtNode forward_direction facade node weight query_heap).1 = false) ∧
    (StallAtNode forward_direction facade node weight query_heap).2 = query_heap ∧
    ((∀ e ∈ facade.GetAdjacentEdgeRange node,
        -2147483648 ≤ query_heap.GetKey (facade.GetTarget e) + (facade.GetEdgeData e).weight ∧
        query_heap.GetKey (facade.GetTarget e) + (facade.GetEdgeData e).weight ≤ 2147483647) →
      ((StallAtNode forward_direction facade node weight query_heap).1 = true ↔
        ∃ e ∈ facade.GetAdjacentEdgeRange node,
          reverseFlag forward_direction (facade.GetEdgeData e) = true ∧
          query_heap.WasInserted (facade.GetTarget e) = true ∧
          query_heap.GetKey (facade.GetTarget e) + (facade.GetEdgeData e).weight < weight)) := by
  have hspec := StallAtNode_loop_spec forward_direction facade weight query_heap
    (facade.GetAdjacentEdgeRange node)
  refine ⟨hspec.2, ?_, hspec.1, ?_⟩
  · intro hnone
    cases hres : (StallAtNode forward_direction facade node weight query_heap).1 with
    | false => rfl
    | true => exact absurd (hspec.2.mp hres) hnone
  · intro hfit
    refine hspec.2.trans ?_
    constructor
    · rintro ⟨e, he, h1, h2, h3⟩
      refine ⟨e, he, h1, h2, ?_⟩
      unfold addWeight at h3
      rwa [wrapInt32_of_fits _ (hfit e he).1 (hfit e he).2] at h3
    · rintro ⟨e, he, h1, h2, h3⟩
      refine ⟨e, he, h1, h2, ?_⟩
      unfold addWeight
      rwa [wrapInt32_of_fits _ (hfit e he).1 (hfit e he).2]

/-- C12 amended, on a node with one backward edge of weight 2 to an inserted node of key 3: the forward
search stalls at weight 10 and not at weight 5, and the backward search does not stall. -/
theorem C12_stall_at_node_witness :
    (StallAtNode true oneEdgeFacade 0 10 (oneNodeHeap 3)).1 = true ∧
    (StallAtNode true oneEdgeFacade 0 5 (oneNodeHeap 3)).1 = false ∧
    (StallAtNode false oneEdgeFacade 0 10 (oneNodeHeap 3)).1 = false ∧
    (StallAtNode true oneEdgeFacade 0 10 (oneNodeHeap 3)).2 = oneNodeHeap 3 :=
  ⟨by decide, by decide, by decide,
    (C12_stall_at_node true oneEdgeFacade 0 10 (oneNodeHeap 3)).2.2.1⟩

/-- C12 as stated fails with the exact sum: at a node with one backward edge of weight 2 to an
inserted node of key 2147483646 the forward check answers `true` for weight 5, although no
adjacent edge has `GetKey(to) + weight(e) < 5` over the integers (the only sum is
2147483648). -/
theorem C12_stall_on_wrapped_sum :
    (StallAtNode true oneEdgeFacade 0 5 (oneNodeHeap 2147483646)).1 = true ∧
    ¬ ∃ e ∈ oneEdgeFacade.GetAdjacentEdgeRange 0,
      reverseFlag true (oneEdgeFacade.GetEdgeData e) = true ∧
      (oneNodeHeap 2147483646).WasInserted (oneEdgeFacade.GetTarget e) = true ∧
      (oneNodeHeap 2147483646).GetKey (oneEdgeFacade.GetTarget e)
        + (oneEdgeFacade.GetEdgeData e).weight < 5 := by
  decide

/-- C13 as stated fails: key 2147483646 and edge weight 2 are both non-negative and below the
sentinel, yet their 32-bit sum wraps to -2147483648; the stall check then answers `true` for
weight 5 although the exact sum 2147483648 is not below 5. -/
theorem C13_addition_wraps :
    (¬ ∀ k w : EdgeWeight, 0 ≤ k → k < INVALID_EDGE_WEIGHT → 0 < w → w < INVALID_EDGE_WEIGHT →
      addWeight k w = k + w) ∧
    addWeight 2147483646 2 = -2147483648 ∧
    (StallAtNode true oneEdgeFacade 0 5 (oneNodeHeap 2147483646)).1 = true ∧
    ¬ ((2147483646 : Int) + 2 < 5) := by
  refine ⟨?_, by decide, by decide, by decide⟩
  intro h
  exact absurd (h 2147483646 2 (by decide) (by decide) (by decide) (by decide)) (by decide)

/-- C13, amended: for a heap key `k ≥ 0` and an edge weight `w > 0` whose exact sum does not
exceed the maximum 2147483647, the 32-bit sum computed in `StallAtNode` equals `k + w`, so the
comparison against `weight` gives the same answer as over unbounded integers. -/
theorem C13_addition_exact_when_fits (k w : EdgeWeight) (hk : 0 ≤ k) (hw : 0 < w)
    (hfit : k + w ≤ 2147483647) :
    addWeight k w = k + w ∧
    ∀ weight : EdgeWeight, addWeight k w < weight ↔ k + w < weight := by
  have hk' : (0 : Int) ≤ k := hk
  have hw' : (0 : Int) < w := hw
  have hlo : (-2147483648 : Int) ≤ k + w := by omega
  have h : addWeight k w = k + w := by
    unfold addWeight
    exact wrapInt32_of_fits _ hlo hfit
  exact ⟨h, fun weight => by rw [h]⟩

/-- C13 amended, at key 2147483645 and edge weight 2. -/
theorem C13_addition_exact_when_fits_witness :
    (0 : Int) ≤ 2147483645 ∧ (0 : Int) < 2 ∧ addWeight 2147483645 2 = 2147483647 :=
  ⟨by decide, by decide,
    (C13_addition_exact_when_fits 2147483645 2 (by decide) (by decide) (by decide)).1⟩

end osrm.engine.routing_algorithms
